import Mathlib

/-!
Verification of the iconkeep CLI (src/iconkeep/cli.py) against its
natural-language specification.

The Python program is shallowly embedded.  A filesystem is a list of
(absolute path, content) entries where a path is a list of components;
directories are implicit (a path exists when it is a prefix of some
entry) plus explicit `dir` entries created by mkdir.  Paths manipulated
by the program mirror pathlib.PurePosixPath: a flag saying whether the
path is absolute plus a component list, with the same purely syntactic
suffix / stem / parents / join / relative_to operations ('.' and empty
components are dropped at parse time, '..' is kept, exactly as pathlib
does).  File contents are structural: an opaque byte string, a parsed
plist dictionary, a parsed backup manifest, or a directory marker;
reading a file as the wrong format is modelled as the parse failure the
Python library would raise.  Fallible operations return Except; the
error type separates IconkeepError (caught by the CLI driver) from any
other Python exception (which propagates and kills the process).
-/

namespace Iconkeep

/-! ### String primitives (Python str methods, on the character list) -/

/-- Python str.lower (per character). -/
def lowerStr (s : String) : String := ⟨s.data.map Char.toLower⟩

/-- Python str.strip: drop whitespace on both ends. -/
def trimStr (s : String) : String :=
  ⟨((s.data.dropWhile Char.isWhitespace).reverse.dropWhile Char.isWhitespace).reverse⟩

/-- Python str.endswith. -/
def endsWithStr (s t : String) : Bool := t.data.isSuffixOf s.data

/-- Python s[:-n] (drop the last n characters). -/
def dropRightStr (s : String) (n : Nat) : String := ⟨s.data.take (s.data.length - n)⟩

/-! ### Path components

A path component list is obtained by splitting on '/', dropping empty
and "." pieces (pathlib does exactly this; ".." is kept). -/

/-- One piece of a split: kept unless empty or ".". -/
def emitComp (acc : List Char) : List String :=
  if acc = [] ∨ acc = ['.'] then [] else [⟨acc⟩]

/-- Split a character list on '/' into path components. -/
def splitCompsAux : List Char → List Char → List String
  | acc, [] => emitComp acc
  | acc, c :: rest =>
    if c = '/' then emitComp acc ++ splitCompsAux [] rest
    else splitCompsAux (acc ++ [c]) rest

def splitComps (s : String) : List String := splitCompsAux [] s.data

/-- A well-formed stored component: nonempty, not ".", contains no '/'.
Every component produced by `splitComps` is well formed. -/
def wfComp (c : String) : Bool :=
  !c.data.isEmpty && !(c.data = ['.'] : Bool) && !c.data.contains '/'

def wfComps (cs : List String) : Bool := cs.all wfComp

/-- Join components with '/' (no leading slash). -/
def joinCompsChars : List String → List Char
  | [] => []
  | [c] => c.data
  | c :: rest => c.data ++ '/' :: joinCompsChars rest

/-! ### PyPath: pathlib.PurePosixPath -/

/-- A pathlib-style pure path: absolute flag plus components. -/
structure PyPath where
  isAbs : Bool
  comps : List String
  deriving DecidableEq, Repr

/-- Path(s): parse a string into a path. -/
def parsePyPath (s : String) : PyPath :=
  ⟨s.data.head? = some '/', splitComps s⟩

/-- str(path). -/
def pathToStr (p : PyPath) : String :=
  if p.isAbs then ⟨'/' :: joinCompsChars p.comps⟩
  else if p.comps = [] then "." else ⟨joinCompsChars p.comps⟩

/-- path.name: the final component ("" for the root / empty path). -/
def pyName (p : PyPath) : String := p.comps.getLast?.getD ""

/-- Suffix of a single file name, as pathlib computes it: the part from
the last '.' on, provided that '.' is neither the first nor the last
character. -/
def strSuffixChars (cs : List Char) : List Char :=
  let tl := cs.reverse.takeWhile (· ≠ '.')
  if tl ≠ [] ∧ tl.length + 1 < cs.length then '.' :: tl.reverse else []

def strSuffix (s : String) : String := ⟨strSuffixChars s.data⟩

/-- path.suffix. -/
def pySuffix (p : PyPath) : String := strSuffix (pyName p)

/-- path.stem: name with the suffix removed. -/
def pyStem (p : PyPath) : String :=
  dropRightStr (pyName p) (strSuffix (pyName p)).data.length

/-- path.parent. -/
def pyParent (p : PyPath) : PyPath := ⟨p.isAbs, p.comps.dropLast⟩

/-- path.parents, outward: immediate parent first, ending at the
anchor ("/" for absolute paths, "." for relative ones). -/
def pyParents (p : PyPath) : List PyPath :=
  (List.range p.comps.length).map fun i => ⟨p.isAbs, p.comps.take (p.comps.length - 1 - i)⟩

/-- path / s (pathlib `/` with a string on the right): an absolute
right operand replaces the left path entirely. -/
def pathJoinStr (p : PyPath) (s : String) : PyPath :=
  let q := parsePyPath s
  if q.isAbs then q else ⟨p.isAbs, p.comps ++ q.comps⟩

/-! ### Errors -/

/-- Identity of each `raise IconkeepError(...)` site in cli.py. -/
inductive IKErr where
  | notFound | invalidBundle | missingPlist | iconNotFound
  | noManifest | missingBackup | missingConfig | emptyConfig
  deriving DecidableEq, Repr

/-- An error escaping an operation: either the tool's own
IconkeepError (with its message) or any other Python exception, which
no handler in cli.py catches. -/
inductive Err where
  | ik (kind : IKErr) (msg : String)
  | crash (what : String)
  deriving DecidableEq, Repr

/-- Approximation of Python repr() for the f-string "{name!r}". -/
def reprStr (s : String) : String := "'" ++ s ++ "'"

/-! ### Plist values and backup records -/

/-- A structured property-list value (strings, integers, booleans,
arrays, dictionaries; the remaining plist types play no role in the
claims). -/
inductive PValue where
  | str (s : String)
  | int (n : Int)
  | bool (b : Bool)
  | list (l : List PValue)
  | dict (d : List (String × PValue))

/-- Python truthiness of a plist value (`if icon_file:` etc.). -/
def truthy : PValue → Bool
  | .str s => !s.data.isEmpty
  | .int n => n != 0
  | .bool b => b
  | .list l => !l.isEmpty
  | .dict d => !d.isEmpty

/-- dict.get on a plist dictionary. -/
def pget (d : List (String × PValue)) (k : String) : Option PValue :=
  (d.find? (fun e => e.1 = k)).map (·.2)

/-- Rendering of a value inside an f-string (exact for strings, which
is the only case the program is ever observed with). -/
def pvToStr : PValue → String
  | .str s => s
  | .int n => toString n
  | .bool b => if b then "True" else "False"
  | .list _ => "[...]"
  | .dict _ => "{...}"

/-- The persisted BackupRecord dataclass.  bundle_id and display_name
are arbitrary plist values exactly as the Python code stores them. -/
structure BackupRecord where
  app_path : String
  bundle_id : Option PValue
  display_name : PValue
  icon_relpath : String
  backup_path : String
  timestamp : String

/-! ### Filesystem model -/

/-- Content of one filesystem entry, structural: opaque bytes/text, a
file that parses as a plist whose root is a dictionary, a file that
parses as a well-formed manifest, or a directory created by mkdir.
Reading a file as a format other than the one it holds is modelled as
the parse failure (crash) the Python library raises. -/
inductive Content where
  | bytes (s : String)
  | plist (d : List (String × PValue))
  | manifest (r : BackupRecord)
  | dir

/-- A filesystem: entries keyed by absolute component lists.
Directories also exist implicitly as prefixes of entries.  The list
order is the (unspecified, filesystem-dependent) enumeration order that
os.scandir-based traversal would produce. -/
abbrev FS := List (List String × Content)

/-- os.path existence: the key names an entry or a prefix of one. -/
def pathExistsAbs (fs : FS) (a : List String) : Bool :=
  fs.any fun e => a.isPrefixOf e.1

/-- Content of the file stored exactly at a key. -/
def lookupFileAbs (fs : FS) (a : List String) : Option Content :=
  (fs.find? (fun e => e.1 = a)).map (·.2)

/-- One filesystem mutation performed by the program. -/
inductive Op where
  | mkdirp (a : List String)
  | writeFile (a : List String) (c : Content)

def Op.key : Op → List String
  | .mkdirp a => a
  | .writeFile a _ => a

def applyOp (fs : FS) : Op → FS
  | .mkdirp a => if pathExistsAbs fs a then fs else fs ++ [(a, .dir)]
  | .writeFile a c => fs.filter (fun e => !(e.1 = a : Bool)) ++ [(a, c)]

def applyOps (ops : List Op) (fs : FS) : FS := ops.foldl applyOp fs

/-! ### Environment -/

/-- Process environment: $HOME, the XDG overrides cli.py reads, the
working directory (relative paths are resolved against it), and the
wall-clock instant datetime.utcnow() returns. -/
structure Env where
  homeStr : String
  cwdStr : String
  xdgDataHome : Option String
  xdgConfigHome : Option String
  nowIso : String

/-- Path.home(). -/
def homePath (env : Env) : PyPath := ⟨true, splitComps env.homeStr⟩

def cwdComps (env : Env) : List String := splitComps env.cwdStr

/-- Absolutize a path against the working directory. -/
def absPy (env : Env) (p : PyPath) : List String :=
  if p.isAbs then p.comps else cwdComps env ++ p.comps

/-- Existence of a PyPath on the filesystem. -/
def pathExists (env : Env) (fs : FS) (p : PyPath) : Bool :=
  pathExistsAbs fs (absPy env p)

/-- Path.expanduser(): expands a leading "~" to the home directory.
A leading "~user" component requires an OS user-database lookup that
the model cannot perform; Python would either resolve it or raise, and
the model reports it as a (non-Iconkeep) error. -/
def expandUser (env : Env) (p : PyPath) : Except Err PyPath :=
  if p.isAbs then .ok p
  else
    match p.comps with
    | [] => .ok p
    | c :: rest =>
      if c = "~" then .ok ⟨true, (homePath env).comps ++ rest⟩
      else if c.data.head? = some '~' then .error (.crash "expanduser: ~user")
      else .ok p

/-! ### XDG directories (cli.py _xdg_dir / data_dir / config_dir) -/

/-- _xdg_dir: Path(os.environ.get(env_var, default)).expanduser().
The default values cli.py passes are built from Path.home() and are
absolute, so expanduser leaves them unchanged; an override string is
parsed and expanded. -/
def xdgDir (env : Env) (override : Option String) (dflt : PyPath) : Except Err PyPath :=
  match override with
  | some s => expandUser env (parsePyPath s)
  | none => expandUser env dflt

/-- data_dir(): XDG_DATA_HOME (default ~/.local/share) /iconkeep/backups. -/
def dataDirE (env : Env) : Except Err PyPath := do
  let base ← xdgDir env env.xdgDataHome
    (pathJoinStr (pathJoinStr (homePath env) ".local") "share")
  .ok (pathJoinStr (pathJoinStr base "iconkeep") "backups")

/-- config_dir(): XDG_CONFIG_HOME (default ~/.config) /iconkeep. -/
def configDirE (env : Env) : Except Err PyPath := do
  let base ← xdgDir env env.xdgConfigHome (pathJoinStr (homePath env) ".config")
  .ok (pathJoinStr base "iconkeep")

/-! ### normalize_app_name and the Bundle Locator -/

/-- normalize_app_name: strip a trailing ".app" case-insensitively,
then strip whitespace and lowercase. -/
def normalizeAppName (name : String) : String :=
  let n := if endsWithStr (lowerStr name) ".app" then dropRightStr name 4 else name
  lowerStr (trimStr n)

/-- APP_SEARCH_DIRS: /Applications, /System/Applications,
~/Applications (expanded at import time). -/
def appSearchDirs (env : Env) : List PyPath :=
  [⟨true, ["Applications"]⟩, ⟨true, ["System", "Applications"]⟩,
   ⟨true, (homePath env).comps ++ ["Applications"]⟩]

/-- The prefixes (ancestors and self) of one entry key. -/
def keyPrefixes (e : List String × Content) : List (List String) :=
  (List.range (e.1.length + 1)).map (e.1.take ·)

/-- All absolute paths that exist on the filesystem (every prefix of
every entry key), in traversal order. -/
def allPathsAbs (fs : FS) : List (List String) :=
  (fs.flatMap keyPrefixes).dedup

/-- root.rglob("*.app"): every existing path strictly below the root
whose final component ends in ".app" (case-sensitively, as fnmatch
matches it), returned relative to the root path object. -/
def rglobApp (env : Env) (fs : FS) (root : PyPath) : List PyPath :=
  ((allPathsAbs fs).filter fun q =>
      (absPy env root).isPrefixOf q && (absPy env root).length < q.length &&
        endsWithStr (q.getLast?.getD "") ".app").map
    fun q => ⟨root.isAbs, root.comps ++ q.drop (absPy env root).length⟩

/-- The bundles under one search root whose normalized name matches the
target, in traversal order. -/
def matchesIn (env : Env) (fs : FS) (target : String) (root : PyPath) : List PyPath :=
  (rglobApp env fs root).filter fun b => normalizeAppName (pyName b) = target

/-- The search loop of find_app_bundle over APP_SEARCH_DIRS. -/
def searchRoots (env : Env) (fs : FS) (ref : String) (target : String) :
    List PyPath → Except Err PyPath
  | [] => .error (.ik .notFound ("Could not find app bundle for " ++ reprStr ref))
  | root :: rest =>
    if pathExists env fs root then
      match (rglobApp env fs root).find? (fun b => normalizeAppName (pyName b) = target) with
      | some b => .ok b
      | none => searchRoots env fs ref target rest
    else searchRoots env fs ref target rest

/-- find_app_bundle. -/
def findAppBundle (env : Env) (fs : FS) (ref : String) : Except Err PyPath := do
  let cand ← expandUser env (parsePyPath ref)
  if pathExists env fs cand then
    if pySuffix cand = ".app" then .ok cand
    else
      match (pyParents cand).find? (fun par => pySuffix par = ".app") with
      | some par => .ok par
      | none =>
        .error (.ik .invalidBundle (reprStr ref ++ " exists but is not inside an .app bundle"))
  else
    searchRoots env fs ref (normalizeAppName ref) (appSearchDirs env)

/-! ### Metadata Reader (read_info_plist) -/

/-- read_info_plist: IconkeepError when Contents/Info.plist is absent;
a plistlib parse failure (uncaught) when present but not a plist
dictionary; IsADirectoryError when it is a directory. -/
def readInfoPlist (env : Env) (fs : FS) (app : PyPath) :
    Except Err (List (String × PValue)) :=
  let pp := pathJoinStr (pathJoinStr app "Contents") "Info.plist"
  if pathExists env fs pp then
    match lookupFileAbs fs (absPy env pp) with
    | some (.plist d) => .ok d
    | some .dir => .error (.crash "IsADirectoryError")
    | some _ => .error (.crash "plistlib.InvalidFileException")
    | none => .error (.crash "IsADirectoryError")
  else .error (.ik .missingPlist ("Missing Info.plist at " ++ pathToStr pp))

/-! ### Icon Resolver (_icon_candidates / resolve_icon_path) -/

/-- _icon_candidates: the generator's yields, in order. -/
def iconCandidates (info : List (String × PValue)) : List PValue :=
  (match pget info "CFBundleIconFile" with
   | some v => if truthy v then [v] else []
   | none => []) ++
  (match pget info "CFBundleIconFiles" with
   | some (.list l) => l.filter truthy
   | _ => []) ++
  (match pget info "CFBundleIcons" with
   | some (.dict d) =>
     match pget d "CFBundlePrimaryIcon" with
     | some (.dict pd) =>
       match pget pd "CFBundleIconFiles" with
       | some (.list l) => l.filter truthy
       | _ => []
     | _ => []
   | _ => [])

/-- path.with_suffix(suf): replaces the suffix of the final component;
raises ValueError on a path with an empty name. -/
def pyWithSuffix (p : PyPath) (suf : String) : Except Err PyPath :=
  let n := pyName p
  if n = "" then .error (.crash "ValueError: with_suffix on empty name")
  else .ok ⟨p.isAbs, p.comps.dropLast ++ [dropRightStr n (strSuffix n).data.length ++ suf]⟩

/-- The candidate loop of resolve_icon_path: the first metadata
candidate whose (suffix-completed) path exists; crashes with TypeError
when a yielded candidate is not a string (Path `/` rejects it). -/
def resolveFromCandidates (env : Env) (fs : FS) (resources : PyPath) :
    List PValue → Except Err (Option PyPath)
  | [] => .ok none
  | v :: rest =>
    match v with
    | .str s => do
      let p0 := pathJoinStr resources s
      let p ← if pySuffix p0 = "" then pyWithSuffix p0 ".icns" else .ok p0
      if pathExists env fs p then .ok (some p)
      else resolveFromCandidates env fs resources rest
    | _ => .error (.crash "TypeError: unsupported operand for /")

/-- Lexicographic comparison of character lists by code point — the
comparison Python uses for strings (and, for children of a single
directory, for their paths). -/
def charListLe : List Char → List Char → Bool
  | [], _ => true
  | _ :: _, [] => false
  | a :: as, b :: bs =>
    if a.toNat < b.toNat then true
    else if b.toNat < a.toNat then false
    else charListLe as bs

def strLe (a b : String) : Bool := charListLe a.data b.data

/-- The direct children of an absolute directory, in traversal order. -/
def childNamesAbs (fs : FS) (a : List String) : List String :=
  ((fs.filterMap fun e =>
      if a.isPrefixOf e.1 then
        match e.1.drop a.length with
        | c :: _ => some c
        | [] => none
      else none)).dedup

/-- sorted(resources.glob("*.icns")) if resources.exists() else []:
the ".icns"-named children sorted lexicographically (sorting the paths
of children of a single directory orders them by name; Python's stable
sort is modelled as a stable insertion sort). -/
def sortedIcnsIn (env : Env) (fs : FS) (resources : PyPath) : List PyPath :=
  if pathExists env fs resources then
    (((childNamesAbs fs (absPy env resources)).filter
        (fun n => endsWithStr n ".icns")).insertionSort (fun a b => strLe a b = true)).map
      fun n => ⟨resources.isAbs, resources.comps ++ [n]⟩
  else []

/-- app_path / "Contents" / "Resources". -/
def resourcesOf (app : PyPath) : PyPath :=
  pathJoinStr (pathJoinStr app "Contents") "Resources"

/-- resolve_icon_path. -/
def resolveIconPath (env : Env) (fs : FS) (app : PyPath)
    (info : List (String × PValue)) : Except Err PyPath :=
  let resources := resourcesOf app
  match resolveFromCandidates env fs resources (iconCandidates info) with
  | .error e => .error e
  | .ok (some p) => .ok p
  | .ok none =>
    match sortedIcnsIn env fs resources with
    | f :: _ => .ok f
    | [] => .error (.ik .iconNotFound "Could not locate an .icns icon file for this app")

/-! ### Record Store (manifest_path_for / load_manifest / write_manifest) -/

/-- manifest_path_for(slug) given a data directory: data_dir()/slug/"manifest.json". -/
def manifestPathFor (dd : PyPath) (slug : String) : PyPath :=
  pathJoinStr (pathJoinStr dd slug) "manifest.json"

/-- load_manifest: the first candidate path that exists is opened and
json-parsed; a parse failure there propagates (it is not caught), so
later candidates are NOT tried.  NoManifest only when no candidate
exists. -/
def loadManifest (env : Env) (fs : FS) : List PyPath → Except Err BackupRecord
  | [] => .error (.ik .noManifest "No backup manifest found for this app")
  | p :: rest =>
    if pathExists env fs p then
      match lookupFileAbs fs (absPy env p) with
      | some (.manifest r) => .ok r
      | some .dir => .error (.crash "IsADirectoryError")
      | some _ => .error (.crash "json.JSONDecodeError")
      | none => .error (.crash "IsADirectoryError")
    else loadManifest env fs rest

/-- slug_for followed by data_dir()/slug in backup: the slug is the
bundle identifier when truthy, else the bundle's stem; joining a
non-string truthy identifier onto a path raises TypeError. -/
def slugJoin (env : Env) (bid : Option PValue) (app : PyPath) : Except Err PyPath := do
  let dd ← dataDirE env
  match bid with
  | some v =>
    if truthy v then
      match v with
      | .str s => .ok (pathJoinStr dd s)
      | _ => .error (.crash "TypeError: unsupported operand for /")
    else .ok (pathJoinStr dd (pyStem app))
  | none => .ok (pathJoinStr dd (pyStem app))

/-- copy2's read of the source file (content must be an actual file). -/
def copy2Content (env : Env) (fs : FS) (src : PyPath) : Except Err Content :=
  match lookupFileAbs fs (absPy env src) with
  | some .dir => .error (.crash "IsADirectoryError")
  | some c => .ok c
  | none => .error (.crash "FileNotFoundError-or-IsADirectoryError")

/-- path.relative_to(base): syntactic, ValueError when base is not a
component-prefix. -/
def pyRelativeTo (p base : PyPath) : Except Err PyPath :=
  if p.isAbs = base.isAbs ∧ base.comps.isPrefixOf p.comps then
    .ok ⟨false, p.comps.drop base.comps.length⟩
  else .error (.crash "ValueError: not relative")

/-! ### Orchestrator: backup and restore

Both return the trace of filesystem mutations performed (in order) and
either the success line printed to stdout or the escaping error. -/

/-- The display name backup reports: CFBundleName when truthy, else
the bundle stem. -/
def displayNameOf (info : List (String × PValue)) (app : PyPath) : PValue :=
  match pget info "CFBundleName" with
  | some v => if truthy v then v else .str (pyStem app)
  | none => .str (pyStem app)

/-- backup(app_name). -/
def backup (env : Env) (fs : FS) (ref : String) : List Op × Except Err String :=
  match findAppBundle env fs ref with
  | .error e => ([], .error e)
  | .ok app =>
  match readInfoPlist env fs app with
  | .error e => ([], .error e)
  | .ok info =>
  let bid := pget info "CFBundleIdentifier"
  let displayName := displayNameOf info app
  match resolveIconPath env fs app info with
  | .error e => ([], .error e)
  | .ok iconPath =>
  match slugJoin env bid app with
  | .error e => ([], .error e)
  | .ok backupRoot =>
  let backupIconPath := pathJoinStr backupRoot "icon.icns"
  let op1 := Op.mkdirp (absPy env backupRoot)
  let fs1 := applyOp fs op1
  match copy2Content env fs1 iconPath with
  | .error e => ([op1], .error e)
  | .ok c =>
  let op2 := Op.writeFile (absPy env backupIconPath) c
  match pyRelativeTo iconPath app with
  | .error e => ([op1, op2], .error e)
  | .ok rel =>
  let rcd : BackupRecord :=
    { app_path := pathToStr app
      bundle_id := bid
      display_name := displayName
      icon_relpath := pathToStr rel
      backup_path := pathToStr backupIconPath
      timestamp := env.nowIso ++ "Z" }
  let mp := pathJoinStr (pyParent (parsePyPath rcd.backup_path)) "manifest.json"
  let op3 := Op.mkdirp (absPy env (pyParent mp))
  let op4 := Op.writeFile (absPy env mp) (.manifest rcd)
  ([op1, op2, op3, op4],
   .ok ("Backed up icon for " ++ pvToStr displayName ++ " -> " ++ pathToStr backupIconPath))

/-- The candidate manifest list restore builds (possible_manifests
with the None filtered out); joining a truthy non-string bundle
identifier onto the data directory raises TypeError. -/
def restoreCandidates (env : Env) (bid : Option PValue) (app : PyPath) (ref : String) :
    Except Err (List PyPath) := do
  let dd ← dataDirE env
  let first ←
    match bid with
    | some v =>
      if truthy v then
        match v with
        | .str s => .ok [manifestPathFor dd s]
        | _ => .error (.crash "TypeError: unsupported operand for /")
      else .ok ([] : List PyPath)
    | none => .ok ([] : List PyPath)
  .ok (first ++ [manifestPathFor dd (pyStem app), manifestPathFor dd (normalizeAppName ref)])

/-- The tail of restore once the manifest has been loaded: verify the
backup file, recompute the live target from the LOCATED bundle plus the
manifest's icon_relpath, create parent directories, copy. -/
def restoreWith (env : Env) (fs : FS) (app : PyPath) (m : BackupRecord) :
    List Op × Except Err String :=
  let bip := parsePyPath m.backup_path
  if pathExists env fs bip then
    let target := pathJoinStr app m.icon_relpath
    let op1 := Op.mkdirp (absPy env (pyParent target))
    match copy2Content env (applyOp fs op1) bip with
    | .error e => ([op1], .error e)
    | .ok c =>
      ([op1, Op.writeFile (absPy env target) c],
       .ok ("Restored icon for " ++ pvToStr m.display_name ++ " -> " ++ pathToStr target))
  else ([], .error (.ik .missingBackup ("Backup icon not found at " ++ pathToStr bip)))

/-- restore(app_name). -/
def restore (env : Env) (fs : FS) (ref : String) : List Op × Except Err String :=
  match findAppBundle env fs ref with
  | .error e => ([], .error e)
  | .ok app =>
  match readInfoPlist env fs app with
  | .error e => ([], .error e)
  | .ok info =>
  match restoreCandidates env (pget info "CFBundleIdentifier") app ref with
  | .error e => ([], .error e)
  | .ok cands =>
  match loadManifest env fs cands with
  | .error e => ([], .error e)
  | .ok m => restoreWith env fs app m

/-! ### Batch mode and the CLI driver -/

/-- Python str.splitlines (newline-separated; a trailing newline does
not produce an extra empty line). -/
def splitLinesChars : List Char → List Char → List String
  | acc, [] => if acc = [] then [] else [⟨acc⟩]
  | acc, c :: rest =>
    if c = '\n' then (⟨acc⟩ : String) :: splitLinesChars [] rest
    else splitLinesChars (acc ++ [c]) rest

def splitLines (s : String) : List String := splitLinesChars [] s.data

/-- load_app_list. -/
def loadAppList (env : Env) (fs : FS) : Except Err (List String) := do
  let cd ← configDirE env
  let cp := pathJoinStr cd "apps"
  if pathExists env fs cp then
    match lookupFileAbs fs (absPy env cp) with
    | some (.bytes s) =>
      let apps := (splitLines s).filterMap fun raw =>
        let line := trimStr raw
        if line = "" ∨ line.data.head? = some '#' then none else some line
      if apps = [] then .error (.ik .emptyConfig ("No apps listed in " ++ pathToStr cp))
      else .ok apps
    | some .dir => .error (.crash "IsADirectoryError")
    | some _ => .error (.crash "UnicodeDecodeError")
    | none => .error (.crash "IsADirectoryError")
  else .error (.ik .missingConfig ("Missing app list at " ++ pathToStr cp))

/-- Result of the batch loop: the filesystem after the processed
entries, the collected IconkeepError failures, the stdout lines of the
successful entries, the entries actually attempted, and the exception
(if any) that escaped the loop. -/
structure BatchResult where
  fs : FS
  failures : List (String × Err)
  outs : List String
  processed : List String
  crashed : Option Err

/-- The per-entry loop shared by both batch branches of main(): each
entry is attempted, IconkeepError failures are collected, any other
exception aborts the loop. -/
def runEntries (op : Env → FS → String → List Op × Except Err String) (env : Env) :
    FS → List String → BatchResult
  | fs, [] => ⟨fs, [], [], [], none⟩
  | fs, app :: rest =>
    let r := op env fs app
    let fs1 := applyOps r.1 fs
    match r.2 with
    | .ok line =>
      let b := runEntries op env fs1 rest
      ⟨b.fs, b.failures, line :: b.outs, app :: b.processed, b.crashed⟩
    | .error (.ik k m) =>
      let b := runEntries op env fs1 rest
      ⟨b.fs, (app, .ik k m) :: b.failures, b.outs, app :: b.processed, b.crashed⟩
    | .error (.crash w) => ⟨fs1, [], [], [app], some (.crash w)⟩

inductive Cmd where
  | backup | restore
  deriving DecidableEq

def opFor : Cmd → (Env → FS → String → List Op × Except Err String)
  | .backup => backup
  | .restore => restore

/-- Outcome of one process invocation: final filesystem, stdout and
stderr lines, and the exit status (none = the process died on an
uncaught exception with a traceback). -/
structure RunResult where
  fs : FS
  stdout : List String
  stderr : List String
  exit : Option Nat

def errMsg : Err → String
  | .ik _ m => m
  | .crash w => w

/-- main() after argument parsing: one command with an optional app
argument. -/
def mainRun (cmd : Cmd) (appArg : Option String) (env : Env) (fs : FS) : RunResult :=
  match appArg with
  | some a =>
    let r := opFor cmd env fs a
    let fs1 := applyOps r.1 fs
    match r.2 with
    | .ok line => ⟨fs1, [line], [], some 0⟩
    | .error (.ik _ m) => ⟨fs1, [], ["Error: " ++ m], some 1⟩
    | .error (.crash _) => ⟨fs1, [], [], none⟩
  | none =>
    match loadAppList env fs with
    | .error (.ik _ m) => ⟨fs, [], ["Error: " ++ m], some 1⟩
    | .error (.crash _) => ⟨fs, [], [], none⟩
    | .ok apps =>
      let b := runEntries (opFor cmd) env fs apps
      match b.crashed with
      | some _ => ⟨b.fs, b.outs, [], none⟩
      | none =>
        if b.failures = [] then ⟨b.fs, b.outs, [], some 0⟩
        else
          ⟨b.fs, b.outs,
           b.failures.map (fun f => "Error: " ++ f.1 ++ ": " ++ errMsg f.2), some 1⟩

/-! ### Claim C4: Record Store read -/

def c4Env : Env := ⟨"/home/u", "/cwd", some "/data", some "/cfg", "T"⟩

def c4Rec : BackupRecord :=
  ⟨"/A/Foo.app", some (.str "com.foo"), .str "Foo",
   "Contents/Resources/ic.icns", "/data/iconkeep/backups/com.foo/icon.icns", "TZ"⟩

def c4FS : FS := [(["m1"], .bytes "not json"), (["m2"], .manifest c4Rec)]

/-- C4 counterexample: with two candidate paths where the first exists
but does not parse and the second exists and parses, load_manifest
raises the parse error instead of skipping to the second candidate, so
the claim "a candidate that exists but fails to parse is skipped in
favor of later candidates" is false on the code. -/
theorem c4_loadManifest_counterexample :
    pathExistsAbs c4FS ["m1"] = true ∧
    lookupFileAbs c4FS ["m2"] = some (.manifest c4Rec) ∧
    loadManifest c4Env c4FS [⟨true, ["m1"]⟩, ⟨true, ["m2"]⟩] =
      .error (.crash "json.JSONDecodeError") :=
  ⟨rfl, rfl, rfl⟩

/-- load_manifest acts on the first candidate path that exists. -/
lemma loadManifest_spec (env : Env) (fs : FS) (paths : List PyPath) :
    loadManifest env fs paths =
      match paths.find? (fun p => pathExists env fs p) with
      | none => .error (.ik .noManifest "No backup manifest found for this app")
      | some p =>
        match lookupFileAbs fs (absPy env p) with
        | some (.manifest r) => .ok r
        | some .dir => .error (.crash "IsADirectoryError")
        | some _ => .error (.crash "json.JSONDecodeError")
        | none => .error (.crash "IsADirectoryError") := by
  induction paths with
  | nil => rfl
  | cons p rest ih =>
    by_cases h : pathExists env fs p
    · simp [loadManifest, h, List.find?]
    · simp [loadManifest, h, List.find?, ih]

/-- C4 (amended): the Record Store read returns the record from the
FIRST candidate path that exists; if that file fails to parse the read
fails with the (uncaught) parse error rather than trying later
candidates, and it fails with NoManifest exactly when no candidate
path exists. -/
theorem c4_loadManifest_firstExisting (env : Env) (fs : FS) (paths : List PyPath) :
    loadManifest env fs paths =
      match paths.find? (fun p => pathExists env fs p) with
      | none => .error (.ik .noManifest "No backup manifest found for this app")
      | some p =>
        match lookupFileAbs fs (absPy env p) with
        | some (.manifest r) => .ok r
        | some .dir => .error (.crash "IsADirectoryError")
        | some _ => .error (.crash "json.JSONDecodeError")
        | none => .error (.crash "IsADirectoryError") :=
  loadManifest_spec env fs paths

/-! ### Claim C5: restore's manifest probe order -/

/-- True when the CFBundleIdentifier value cannot make the probe-list
construction raise TypeError (it is absent, a string, or falsy). -/
def bidBenign : Option PValue → Bool
  | none => true
  | some (.str _) => true
  | some v => !truthy v

/-- The slug restore derives from the currently read bundle identifier
(a nonempty string; anything else contributes no candidate). -/
def bidSlug : Option PValue → Option String
  | some (.str s) => if s.data.isEmpty then none else some s
  | _ => none

/-- C5: under a restore invocation that has located the bundle and read
its metadata, the manifest lookup probes exactly (1) the bundle
identifier from the live metadata when present, (2) the located
bundle's base filename without extension, (3) the normalized raw
user-typed reference — in that order — and the first candidate whose
manifest file is found is the one restore proceeds with. -/
theorem c5_restore_probe_order (env : Env) (fs : FS) (ref : String) (app : PyPath)
    (info : List (String × PValue)) (dd : PyPath)
    (hf : findAppBundle env fs ref = .ok app)
    (hp : readInfoPlist env fs app = .ok info)
    (hd : dataDirE env = .ok dd)
    (hb : bidBenign (pget info "CFBundleIdentifier") = true) :
    restoreCandidates env (pget info "CFBundleIdentifier") app ref =
      .ok ((match bidSlug (pget info "CFBundleIdentifier") with
            | some s => [manifestPathFor dd s]
            | none => []) ++
           [manifestPathFor dd (pyStem app), manifestPathFor dd (normalizeAppName ref)]) ∧
    (∀ p r,
      ((match bidSlug (pget info "CFBundleIdentifier") with
        | some s => [manifestPathFor dd s]
        | none => []) ++
       [manifestPathFor dd (pyStem app),
        manifestPathFor dd (normalizeAppName ref)]).find?
          (fun q => pathExists env fs q) = some p →
      lookupFileAbs fs (absPy env p) = some (.manifest r) →
      restore env fs ref = restoreWith env fs app r) := by
  have hcands : restoreCandidates env (pget info "CFBundleIdentifier") app ref =
      .ok ((match bidSlug (pget info "CFBundleIdentifier") with
            | some s => [manifestPathFor dd s]
            | none => []) ++
           [manifestPathFor dd (pyStem app), manifestPathFor dd (normalizeAppName ref)]) := by
    unfold restoreCandidates
    rw [hd]
    match hbid : pget info "CFBundleIdentifier" with
    | none => rfl
    | some (.str s) =>
      by_cases hs : s.data.isEmpty
      · simp [truthy, hs, bidSlug, Bind.bind, Except.bind]
      · simp [truthy, hs, bidSlug, Bind.bind, Except.bind]
    | some (.int n) =>
      rw [hbid] at hb
      simp only [bidBenign, Bool.not_eq_true'] at hb
      simp [hb, bidSlug, Bind.bind, Except.bind]
    | some (.bool b) =>
      rw [hbid] at hb
      simp only [bidBenign, Bool.not_eq_true'] at hb
      simp [hb, bidSlug, Bind.bind, Except.bind]
    | some (.list l) =>
      rw [hbid] at hb
      simp only [bidBenign, Bool.not_eq_true'] at hb
      simp [hb, bidSlug, Bind.bind, Except.bind]
    | some (.dict d) =>
      rw [hbid] at hb
      simp only [bidBenign, Bool.not_eq_true'] at hb
      simp [hb, bidSlug, Bind.bind, Except.bind]
  refine ⟨hcands, fun p r hfind hlook => ?_⟩
  simp only [restore, hf, hp, hcands, loadManifest_spec, hfind, hlook]

/-- A concrete environment shared by the witnesses: HOME=/home/u,
cwd=/cwd, XDG_DATA_HOME=/data, XDG_CONFIG_HOME=/cfg. -/
def wEnv : Env := ⟨"/home/u", "/cwd", some "/data", some "/cfg", "T"⟩

def c5Info : List (String × PValue) :=
  [("CFBundleIdentifier", .str "com.foo"), ("CFBundleIconFile", .str "ic")]

def c5Rec : BackupRecord :=
  ⟨"/Apps/Foo.app", some (.str "com.foo"), .str "Foo",
   "Contents/Resources/ic.icns", "/data/iconkeep/backups/com.foo/icon.icns", "TZ"⟩

def c5FS : FS := [
  (["Apps", "Foo.app", "Contents", "Info.plist"], .plist c5Info),
  (["Apps", "Foo.app", "Contents", "Resources", "ic.icns"], .bytes "ICON"),
  (["data", "iconkeep", "backups", "com.foo", "icon.icns"], .bytes "ICON"),
  (["data", "iconkeep", "backups", "com.foo", "manifest.json"], .manifest c5Rec)]

/-- Witness for C5 at a concrete backed-up state: the probe list is
identifier, stem, normalized reference, and restore proceeds with the
manifest found under the identifier slug. -/
theorem c5_restore_probe_order_witness :
    restoreCandidates wEnv (pget c5Info "CFBundleIdentifier")
        ⟨true, ["Apps", "Foo.app"]⟩ "/Apps/Foo.app" =
      .ok [⟨true, ["data", "iconkeep", "backups", "com.foo", "manifest.json"]⟩,
           ⟨true, ["data", "iconkeep", "backups", "Foo", "manifest.json"]⟩,
           ⟨true, ["apps", "foo", "manifest.json"]⟩] ∧
    restore wEnv c5FS "/Apps/Foo.app" =
      restoreWith wEnv c5FS ⟨true, ["Apps", "Foo.app"]⟩ c5Rec := by
  have h := c5_restore_probe_order wEnv c5FS "/Apps/Foo.app" ⟨true, ["Apps", "Foo.app"]⟩
    c5Info ⟨true, ["data", "iconkeep", "backups"]⟩ rfl rfl rfl rfl
  exact ⟨h.1, h.2 ⟨true, ["data", "iconkeep", "backups", "com.foo", "manifest.json"]⟩
    c5Rec rfl rfl⟩

/-! ### Basic path lemmas -/

lemma string_eta (s : String) : (⟨s.data⟩ : String) = s := by cases s; rfl

lemma splitCompsAux_no_slash (cs : List Char) :
    ∀ acc, cs.contains '/' = false → splitCompsAux acc cs = emitComp (acc ++ cs) := by
  induction cs with
  | nil => intro acc _; simp [splitCompsAux]
  | cons c rest ih =>
    intro acc h
    simp only [List.contains_cons, Bool.or_eq_false_iff] at h
    have hc : ¬(c = '/') := by
      intro hh
      subst hh
      simpa using h.1
    simp [splitCompsAux, hc, ih (acc ++ [c]) h.2]

/-- A well-formed name parses to exactly one component. -/
lemma splitComps_plain {n : String} (h : wfComp n = true) : splitComps n = [n] := by
  simp only [wfComp, Bool.and_eq_true, Bool.not_eq_true'] at h
  rw [splitComps, splitCompsAux_no_slash _ _ h.2]
  simp only [List.nil_append, emitComp]
  have h1 : ¬(n.data = []) := by
    intro hh
    have := h.1.1
    rw [hh] at this
    simp at this
  have h2 : ¬(n.data = ['.']) := by
    intro hh
    have := h.1.2
    rw [hh] at this
    simp at this
  rw [if_neg (by simp [h1, h2]), string_eta]

lemma head_ne_slash {n : String} (h : wfComp n = true) : (n.data.head? = some '/') = False := by
  simp only [wfComp, Bool.and_eq_true, Bool.not_eq_true'] at h
  simp only [eq_iff_iff, iff_false]
  intro hh
  cases hd : n.data with
  | nil => rw [hd] at hh; simp at hh
  | cons a t =>
    rw [hd] at hh
    simp only [List.head?_cons, Option.some.injEq] at hh
    have h2 := h.2
    rw [hd, ← hh] at h2
    simp [List.contains_cons] at h2

/-- A well-formed name parses as the relative one-component path. -/
lemma parsePyPath_plain {n : String} (h : wfComp n = true) :
    parsePyPath n = ⟨false, [n]⟩ := by
  simp [parsePyPath, splitComps_plain h, head_ne_slash h]

/-- Joining a well-formed name appends one component. -/
lemma pathJoinStr_plain (p : PyPath) {n : String} (h : wfComp n = true) :
    pathJoinStr p n = ⟨p.isAbs, p.comps ++ [n]⟩ := by
  simp [pathJoinStr, parsePyPath_plain h]

lemma pyName_concat (b : Bool) (cs : List String) (n : String) :
    pyName ⟨b, cs ++ [n]⟩ = n := by
  simp [pyName, List.getLast?_concat]

lemma dropRightStr_zero (s : String) : dropRightStr s 0 = s := by
  unfold dropRightStr
  rw [Nat.sub_zero, List.take_length, string_eta]

/-! ### Claim C2: icon candidate resolution -/

def asPlistList : Option PValue → List PValue
  | some (.list l) => l
  | _ => []

def asPlistDict : Option PValue → Option (List (String × PValue))
  | some (.dict d) => some d
  | _ => none

/-- The candidate-name sequence exactly as the claim words it: the
single icon-filename field, then the entries of the icon-filenames
list, then the entries of the primary-icon's nested filenames list,
with empty or missing entries skipped and no de-duplication. -/
def claimCandidateSeq (info : List (String × PValue)) : List PValue :=
  ((pget info "CFBundleIconFile").toList ++
   asPlistList (pget info "CFBundleIconFiles") ++
   asPlistList (do
     let icons ← asPlistDict (pget info "CFBundleIcons")
     let prim ← asPlistDict (pget icons "CFBundlePrimaryIcon")
     pget prim "CFBundleIconFiles")).filter truthy

/-- The per-candidate path exactly as the claim words it:
<bundle>/Contents/Resources/<name>, with the canonical ".icns"
extension appended to the path only when the name has no extension. -/
def claimCandidatePath (resources : PyPath) (name : String) : PyPath :=
  if strSuffix name = "" then ⟨resources.isAbs, resources.comps ++ [name ++ ".icns"]⟩
  else ⟨resources.isAbs, resources.comps ++ [name]⟩

lemma iconCandidates_eq_claim (info : List (String × PValue)) :
    iconCandidates info = claimCandidateSeq info := by
  unfold iconCandidates claimCandidateSeq
  rw [List.filter_append, List.filter_append]
  congr 1
  congr 1
  · match pget info "CFBundleIconFile" with
    | none => rfl
    | some v =>
      by_cases h : truthy v
      · simp [h]
      · simp [h]
  · match pget info "CFBundleIconFiles" with
    | none => rfl
    | some (.str s) => rfl
    | some (.int n) => rfl
    | some (.bool b) => rfl
    | some (.list l) => rfl
    | some (.dict d) => rfl
  · match pget info "CFBundleIcons" with
    | none => rfl
    | some (.str s) => rfl
    | some (.int n) => rfl
    | some (.bool b) => rfl
    | some (.list l) => rfl
    | some (.dict d) =>
      simp only [asPlistDict, Option.bind_eq_bind, Option.some_bind]
      match pget d "CFBundlePrimaryIcon" with
      | none => rfl
      | some (.str s) => rfl
      | some (.int n) => rfl
      | some (.bool b) => rfl
      | some (.list l) => rfl
      | some (.dict pd) =>
        simp only [asPlistDict, Option.some_bind]
        match pget pd "CFBundleIconFiles" with
        | none => rfl
        | some (.str s) => rfl
        | some (.int n) => rfl
        | some (.bool b) => rfl
        | some (.list l) => rfl
        | some (.dict d2) => rfl

/-- The candidate loop on plain string names returns the first formed
path that exists. -/
lemma resolveFromCandidates_plain (env : Env) (fs : FS) (resources : PyPath)
    (names : List String) (hplain : names.all wfComp = true) :
    resolveFromCandidates env fs resources (names.map PValue.str) =
      .ok ((names.map (claimCandidatePath resources)).find?
            (fun q => pathExists env fs q)) := by
  induction names with
  | nil => rfl
  | cons n rest ih =>
    simp only [List.all_cons, Bool.and_eq_true] at hplain
    have hn := hplain.1
    have hne : ¬(n = "") := by
      simp only [wfComp, Bool.and_eq_true, Bool.not_eq_true'] at hn
      intro hh
      rw [hh] at hn
      simp at hn
    simp only [List.map_cons, resolveFromCandidates, List.find?]
    rw [pathJoinStr_plain resources hn]
    by_cases hsuf : strSuffix n = ""
    · have hps : pySuffix ⟨resources.isAbs, resources.comps ++ [n]⟩ = "" := by
        rw [pySuffix, pyName_concat, hsuf]
      have hws : pyWithSuffix ⟨resources.isAbs, resources.comps ++ [n]⟩ ".icns" =
          .ok ⟨resources.isAbs, resources.comps ++ [n ++ ".icns"]⟩ := by
        simp only [pyWithSuffix, pyName_concat, if_neg hne, List.dropLast_concat, hsuf]
        simp [dropRightStr_zero]
      have hcp : claimCandidatePath resources n =
          ⟨resources.isAbs, resources.comps ++ [n ++ ".icns"]⟩ := by
        simp [claimCandidatePath, hsuf]
      rw [hps]
      simp only [if_pos rfl, hws, Bind.bind, Except.bind, hcp]
      by_cases hex : pathExists env fs ⟨resources.isAbs, resources.comps ++ [n ++ ".icns"]⟩ = true
      · simp [hex]
      · have hex2 : pathExists env fs
            ⟨resources.isAbs, resources.comps ++ [n ++ ".icns"]⟩ = false := by
          simpa using hex
        simp [hex2, ih hplain.2]
    · have hps : pySuffix ⟨resources.isAbs, resources.comps ++ [n]⟩ = strSuffix n := by
        rw [pySuffix, pyName_concat]
      have hcp : claimCandidatePath resources n =
          ⟨resources.isAbs, resources.comps ++ [n]⟩ := by
        simp [claimCandidatePath, hsuf]
      rw [hps]
      simp only [if_neg hsuf, Bind.bind, Except.bind, hcp]
      by_cases hex : pathExists env fs ⟨resources.isAbs, resources.comps ++ [n]⟩ = true
      · simp [hex]
      · have hex2 : pathExists env fs ⟨resources.isAbs, resources.comps ++ [n]⟩ = false := by
          simpa using hex
        simp [hex2, ih hplain.2]

/-- C2: resolveIcon tries the metadata candidates in exactly the
claimed order (single field, list field entries, nested primary-icon
entries, truthy ones only, not de-duplicated); each candidate name
forms <bundle>/Contents/Resources/<name> with ".icns" appended to the
path only when the name has no extension, and the first formed path
that exists is returned. -/
theorem c2_resolveIcon_candidates (env : Env) (fs : FS) (app : PyPath)
    (info : List (String × PValue)) (names : List String)
    (hnames : claimCandidateSeq info = names.map PValue.str)
    (hplain : names.all wfComp = true) :
    iconCandidates info = claimCandidateSeq info ∧
    (∀ p, (names.map (claimCandidatePath (resourcesOf app))).find?
            (fun q => pathExists env fs q) = some p →
      resolveIconPath env fs app info = .ok p) ∧
    ((names.map (claimCandidatePath (resourcesOf app))).find?
        (fun q => pathExists env fs q) = none →
      resolveFromCandidates env fs (resourcesOf app) (iconCandidates info) = .ok none) := by
  have hloop : resolveFromCandidates env fs (resourcesOf app) (iconCandidates info) =
      .ok ((names.map (claimCandidatePath (resourcesOf app))).find?
            (fun q => pathExists env fs q)) := by
    rw [iconCandidates_eq_claim, hnames]
    exact resolveFromCandidates_plain env fs (resourcesOf app) names hplain
  refine ⟨iconCandidates_eq_claim info, fun p hp => ?_, fun hnone => ?_⟩
  · simp only [resolveIconPath, hloop, hp]
  · rw [hloop, hnone]

def c2App : PyPath := ⟨true, ["A", "W.app"]⟩

def c2Info : List (String × PValue) :=
  [("CFBundleIconFile", .str "missing"),
   ("CFBundleIconFiles", .list [.str "", .str "real.icns"])]

def c2FS : FS := [(["A", "W.app", "Contents", "Resources", "real.icns"], .bytes "X")]

/-- Witness for C2: a single-field candidate without extension (gets
".icns" appended, does not exist) followed by an icon-files list whose
empty entry is skipped; the first existing formed path is returned. -/
theorem c2_resolveIcon_candidates_witness :
    claimCandidateSeq c2Info = (["missing", "real.icns"] : List String).map PValue.str ∧
    (["missing", "real.icns"] : List String).all wfComp = true ∧
    resolveIconPath wEnv c2FS c2App c2Info =
      .ok ⟨true, ["A", "W.app", "Contents", "Resources", "real.icns"]⟩ :=
  ⟨rfl, rfl,
   (c2_resolveIcon_candidates wEnv c2FS c2App c2Info ["missing", "real.icns"]
      rfl rfl).2.1 _ rfl⟩

/-! ### Claim C3: the lexicographic fallback -/

lemma charListLe_refl : ∀ a : List Char, charListLe a a = true := by
  intro a
  induction a with
  | nil => rfl
  | cons x xs ih => simp [charListLe, ih]

lemma charListLe_trans :
    ∀ a b c : List Char, charListLe a b = true → charListLe b c = true →
      charListLe a c = true := by
  intro a
  induction a with
  | nil => intro b c _ _; rfl
  | cons x xs ih =>
    intro b c h1 h2
    cases b with
    | nil => simp [charListLe] at h1
    | cons y ys =>
      cases c with
      | nil => simp [charListLe] at h2
      | cons z zs =>
        simp only [charListLe] at h1 h2 ⊢
        by_cases hxy : x.toNat < y.toNat
        · by_cases hyz : y.toNat < z.toNat
          · simp [show x.toNat < z.toNat from by omega]
          · by_cases hzy : z.toNat < y.toNat
            · simp [hyz, hzy] at h2
            · simp [show x.toNat < z.toNat from by omega]
        · by_cases hyx : y.toNat < x.toNat
          · simp [hxy, hyx] at h1
          · by_cases hyz : y.toNat < z.toNat
            · simp [show x.toNat < z.toNat from by omega]
            · by_cases hzy : z.toNat < y.toNat
              · simp [hyz, hzy] at h2
              · have hxz : ¬(x.toNat < z.toNat) := by omega
                have hzx : ¬(z.toNat < x.toNat) := by omega
                simp only [if_neg hxy, if_neg hyx] at h1
                simp only [if_neg hyz, if_neg hzy] at h2
                simp only [if_neg hxz, if_neg hzx]
                exact ih ys zs h1 h2

lemma charListLe_total :
    ∀ a b : List Char, charListLe a b = true ∨ charListLe b a = true := by
  intro a
  induction a with
  | nil => intro b; left; rfl
  | cons x xs ih =>
    intro b
    cases b with
    | nil => right; rfl
    | cons y ys =>
      simp only [charListLe]
      by_cases hxy : x.toNat < y.toNat
      · left; simp [hxy]
      · by_cases hyx : y.toNat < x.toNat
        · right; simp [hyx]
        · simp only [if_neg hxy, if_neg hyx]
          exact ih ys

instance : IsTrans String (fun a b => strLe a b = true) :=
  ⟨fun a b c h1 h2 => charListLe_trans a.data b.data c.data h1 h2⟩

instance : IsTotal String (fun a b => strLe a b = true) :=
  ⟨fun a b => charListLe_total a.data b.data⟩

/-- The ".icns"-named children of Contents/Resources. -/
def icnsNames (env : Env) (fs : FS) (resources : PyPath) : List String :=
  (childNamesAbs fs (absPy env resources)).filter (fun n => endsWithStr n ".icns")

/-- C3: when no metadata candidate resolves, resolveIcon returns the
lexicographically first ".icns" file in Contents/Resources, and it
fails with IconNotFound exactly when the Resources directory is absent
or holds no such file. -/
theorem c3_resolveIcon_fallback (env : Env) (fs : FS) (app : PyPath)
    (info : List (String × PValue))
    (hmeta : resolveFromCandidates env fs (resourcesOf app) (iconCandidates info) =
      .ok none) :
    (resolveIconPath env fs app info =
        .error (.ik .iconNotFound "Could not locate an .icns icon file for this app") ↔
      (pathExists env fs (resourcesOf app) = false ∨
       icnsNames env fs (resourcesOf app) = [])) ∧
    (∀ p, resolveIconPath env fs app info = .ok p →
      ∃ n, p = ⟨(resourcesOf app).isAbs, (resourcesOf app).comps ++ [n]⟩ ∧
        n ∈ icnsNames env fs (resourcesOf app) ∧
        ∀ n2 ∈ icnsNames env fs (resourcesOf app), strLe n n2 = true) := by
  have hres : resolveIconPath env fs app info =
      match sortedIcnsIn env fs (resourcesOf app) with
      | f :: _ => .ok f
      | [] => .error (.ik .iconNotFound "Could not locate an .icns icon file for this app") := by
    simp only [resolveIconPath, hmeta]
  by_cases hex : pathExists env fs (resourcesOf app) = true
  · have hsort : sortedIcnsIn env fs (resourcesOf app) =
        ((icnsNames env fs (resourcesOf app)).insertionSort
          (fun a b => strLe a b = true)).map
          (fun n => ⟨(resourcesOf app).isAbs, (resourcesOf app).comps ++ [n]⟩) := by
      simp [sortedIcnsIn, hex, icnsNames]
    constructor
    · rw [hres, hsort]
      match hms : (icnsNames env fs (resourcesOf app)).insertionSort
          (fun a b => strLe a b = true) with
      | [] =>
        simp only [List.map_nil, hex, true_iff, eq_self_iff_true]
        have : icnsNames env fs (resourcesOf app) = [] := by
          have := List.perm_insertionSort (fun a b => strLe a b = true)
            (icnsNames env fs (resourcesOf app))
          rw [hms] at this
          exact (List.Perm.nil_eq this).symm
        simp [this]
      | f :: rest =>
        simp only [List.map_cons]
        constructor
        · intro hcontr
          exact absurd hcontr (by simp)
        · intro hor
          rcases hor with h1 | h1
          · rw [hex] at h1; exact absurd h1 (by simp)
          · rw [h1] at hms
            exact absurd hms.symm (by simp)
    · intro p hp
      rw [hres, hsort] at hp
      match hms : (icnsNames env fs (resourcesOf app)).insertionSort
          (fun a b => strLe a b = true) with
      | [] => rw [hms] at hp; simp at hp
      | f :: rest =>
        rw [hms] at hp
        simp only [List.map_cons, Except.ok.injEq] at hp
        refine ⟨f, hp.symm, ?_, ?_⟩
        · have : f ∈ (icnsNames env fs (resourcesOf app)).insertionSort
              (fun a b => strLe a b = true) := by
            rw [hms]; exact List.mem_cons_self f rest
          rwa [List.mem_insertionSort] at this
        · intro n2 hn2
          have hmem : n2 ∈ (icnsNames env fs (resourcesOf app)).insertionSort
              (fun a b => strLe a b = true) := by
            rwa [List.mem_insertionSort]
          rw [hms] at hmem
          rcases List.mem_cons.mp hmem with h | h
          · rw [h]
            exact charListLe_refl f.data
          · have hsorted := List.sorted_insertionSort
              (r := fun a b => strLe a b = true)
              (icnsNames env fs (resourcesOf app))
            rw [hms] at hsorted
            exact (List.pairwise_cons.mp hsorted).1 n2 h
  · have hex2 : pathExists env fs (resourcesOf app) = false := by simpa using hex
    have hsort : sortedIcnsIn env fs (resourcesOf app) = [] := by
      simp [sortedIcnsIn, hex2]
    constructor
    · rw [hres, hsort]
      simp [hex2]
    · intro p hp
      rw [hres, hsort] at hp
      simp at hp

def c3App : PyPath := ⟨true, ["A", "Z.app"]⟩

def c3FS : FS := [
  (["A", "Z.app", "Contents", "Resources", "b.icns"], .bytes "b"),
  (["A", "Z.app", "Contents", "Resources", "a.icns"], .bytes "a"),
  (["A", "Z.app", "Contents", "Resources", "c.icns"], .bytes "c")]

/-- Witness for C3, on the fixed three-file fixture from the spec:
among b.icns, a.icns, c.icns with empty metadata the fallback returns
a.icns, and the IconNotFound characterization holds there. -/
theorem c3_resolveIcon_fallback_witness :
    resolveFromCandidates wEnv c3FS (resourcesOf c3App) (iconCandidates []) = .ok none ∧
    (resolveIconPath wEnv c3FS c3App [] =
        .error (.ik .iconNotFound "Could not locate an .icns icon file for this app") ↔
      (pathExists wEnv c3FS (resourcesOf c3App) = false ∨
       icnsNames wEnv c3FS (resourcesOf c3App) = [])) ∧
    resolveIconPath wEnv c3FS c3App [] =
      .ok ⟨true, ["A", "Z.app", "Contents", "Resources", "a.icns"]⟩ :=
  ⟨rfl, (c3_resolveIcon_fallback wEnv c3FS c3App [] rfl).1, by rfl⟩

/-! ### Claim C10: bundle recognition is case-sensitive on ".app" -/

/-- C10: when the expanded reference exists on disk, bundles are
recognized only by the exact lowercase suffix ".app": an existing path
whose extension is ".APP", none of whose ancestors has suffix ".app",
makes locate fail with InvalidBundle — even though name normalization
strips the extension case-insensitively (e.g. "Foo.APP" normalizes to
"foo"). -/
theorem c10_case_sensitive_suffix (env : Env) (fs : FS) (ref : String) (p : PyPath)
    (hx : expandUser env (parsePyPath ref) = .ok p)
    (hex : pathExists env fs p = true)
    (hsuf : pySuffix p = ".APP")
    (hpar : (pyParents p).all (fun q => !(pySuffix q = ".app" : Bool)) = true) :
    findAppBundle env fs ref =
      .error (.ik .invalidBundle (reprStr ref ++ " exists but is not inside an .app bundle")) ∧
    normalizeAppName "Foo.APP" = "foo" := by
  refine ⟨?_, rfl⟩
  have hne : ¬(pySuffix p = ".app") := by
    rw [hsuf]
    decide
  have hfind : (pyParents p).find? (fun par => pySuffix par = ".app") = none := by
    rw [List.find?_eq_none]
    intro q hq
    have := List.all_eq_true.mp hpar q hq
    simpa using this
  simp only [findAppBundle, hx, Bind.bind, Except.bind, hex, if_true, hne, if_false, hfind,
    ite_false, ite_true]

def c10FS : FS := [(["T", "Foo.APP", "data"], .bytes "x")]

/-- Witness for C10: /T/Foo.APP exists as a directory yet locate
rejects it with InvalidBundle. -/
theorem c10_case_sensitive_suffix_witness :
    expandUser wEnv (parsePyPath "/T/Foo.APP") = .ok ⟨true, ["T", "Foo.APP"]⟩ ∧
    pathExists wEnv c10FS ⟨true, ["T", "Foo.APP"]⟩ = true ∧
    findAppBundle wEnv c10FS "/T/Foo.APP" =
      .error (.ik .invalidBundle
        (reprStr "/T/Foo.APP" ++ " exists but is not inside an .app bundle")) :=
  ⟨rfl, rfl,
   (c10_case_sensitive_suffix wEnv c10FS "/T/Foo.APP" ⟨true, ["T", "Foo.APP"]⟩
      rfl rfl rfl rfl).1⟩

/-! ### Claim C7: backup orders its writes safely -/

/-- A successful backup performs exactly: mkdir of the backup
directory, write of the copied icon, mkdir of the manifest's parent,
write of the manifest — in that order. -/
lemma backup_ok_shape (env : Env) (fs : FS) (ref : String) (l : List Op) (line : String)
    (h : backup env fs ref = (l, .ok line)) :
    ∃ a1 a2 c a3 a4 rcd,
      l = [.mkdirp a1, .writeFile a2 c, .mkdirp a3, .writeFile a4 (.manifest rcd)] := by
  unfold backup at h
  cases h1 : findAppBundle env fs ref with
  | error e => simp [h1] at h
  | ok app =>
  simp only [h1] at h
  cases h2 : readInfoPlist env fs app with
  | error e => simp [h2] at h
  | ok info =>
  simp only [h2] at h
  cases h3 : resolveIconPath env fs app info with
  | error e => simp [h3] at h
  | ok iconPath =>
  simp only [h3] at h
  cases h4 : slugJoin env (pget info "CFBundleIdentifier") app with
  | error e => simp [h4] at h
  | ok backupRoot =>
  simp only [h4] at h
  cases h5 : copy2Content env
      (applyOp fs (Op.mkdirp (absPy env backupRoot))) iconPath with
  | error e => simp [h5] at h
  | ok c =>
  simp only [h5] at h
  cases h6 : pyRelativeTo iconPath app with
  | error e => simp [h6] at h
  | ok rel =>
  simp only [h6, Prod.mk.injEq] at h
  exact ⟨_, _, c, _, _, _, h.1.symm⟩

/-- C7: if bundle location, metadata reading or icon resolution fails,
backup performs no filesystem mutation at all; and on success the
manifest write is the final operation, strictly after the icon copy. -/
theorem c7_backup_no_partial_state (env : Env) (fs : FS) (ref : String) :
    (∀ e : Err,
      (findAppBundle env fs ref = .error e ∨
       (∃ app, findAppBundle env fs ref = .ok app ∧ readInfoPlist env fs app = .error e) ∨
       (∃ app info, findAppBundle env fs ref = .ok app ∧
          readInfoPlist env fs app = .ok info ∧
          resolveIconPath env fs app info = .error e)) →
      backup env fs ref = ([], .error e)) ∧
    (∀ l line, backup env fs ref = (l, .ok line) →
      ∃ a1 a2 c a3 a4 rcd,
        l = [.mkdirp a1, .writeFile a2 c, .mkdirp a3, .writeFile a4 (.manifest rcd)]) := by
  constructor
  · intro e he
    rcases he with h | ⟨app, h1, h2⟩ | ⟨app, info, h1, h2, h3⟩
    · simp only [backup, h]
    · simp only [backup, h1, h2]
    · simp only [backup, h1, h2, h3]
  · intro l line h
    exact backup_ok_shape env fs ref l line h

/-- Witness for C7 at concrete inputs: a failing location leaves the
trace empty, and a successful backup's trace has the manifest write
last, after the icon write. -/
theorem c7_backup_no_partial_state_witness :
    findAppBundle wEnv c2FS "nope" =
      .error (.ik .notFound ("Could not find app bundle for " ++ reprStr "nope")) ∧
    backup wEnv c2FS "nope" =
      ([], .error (.ik .notFound ("Could not find app bundle for " ++ reprStr "nope"))) :=
  ⟨rfl,
   (c7_backup_no_partial_state wEnv c2FS "nope").1 _ (Or.inl rfl)⟩

/-! ### Claim C6: restore's target and the MissingBackupFile check -/

lemma lookup_after_mkdirp (fs : FS) (a b : List String)
    (h : pathExistsAbs fs a = true ∨ b ≠ a) :
    lookupFileAbs (applyOp fs (.mkdirp a)) b = lookupFileAbs fs b := by
  unfold applyOp
  by_cases hex : pathExistsAbs fs a = true
  · simp [hex]
  · have hba : b ≠ a := by
      rcases h with h | h
      · exact absurd h hex
      · exact h
    have hex2 : pathExistsAbs fs a = false := by simpa using hex
    simp only [hex2, Bool.false_eq_true, if_neg, ite_false]
    unfold lookupFileAbs
    rw [List.find?_append]
    have : ([(a, Content.dir)].find? (fun e => e.1 = b)) = none := by
      simp [List.find?, hba.symm]
    rw [this]
    cases fs.find? (fun e => e.1 = b) <;> rfl

lemma copy2Content_ok (env : Env) (fs : FS) (src : PyPath) (c : Content)
    (h : copy2Content env fs src = .ok c) :
    lookupFileAbs fs (absPy env src) = some c := by
  unfold copy2Content at h
  cases hl : lookupFileAbs fs (absPy env src) with
  | none => simp [hl] at h
  | some c2 =>
    simp only [hl] at h
    cases c2 with
    | dir => simp at h
    | bytes s =>
      simp only [Except.ok.injEq] at h
      rw [h]
    | plist d =>
      simp only [Except.ok.injEq] at h
      rw [h]
    | manifest r =>
      simp only [Except.ok.injEq] at h
      rw [h]

/-- C6: the restore target is <located-bundle>/<manifest.icon_relpath>
(the bundle path stored in the manifest does not enter the
computation); parent directories are created first; and when the
backup file named in the manifest no longer exists, restore fails with
MissingBackupFile having performed no filesystem mutation. -/
theorem c6_restore_target (env : Env) (fs : FS) (ref : String) (app : PyPath)
    (info : List (String × PValue)) (cands : List PyPath) (m : BackupRecord)
    (hf : findAppBundle env fs ref = .ok app)
    (hp : readInfoPlist env fs app = .ok info)
    (hc : restoreCandidates env (pget info "CFBundleIdentifier") app ref = .ok cands)
    (hm : loadManifest env fs cands = .ok m) :
    (pathExists env fs (parsePyPath m.backup_path) = false →
      restore env fs ref =
        ([], .error (.ik .missingBackup
          ("Backup icon not found at " ++ pathToStr (parsePyPath m.backup_path))))) ∧
    (∀ l line, restore env fs ref = (l, .ok line) →
      ∃ c, l = [.mkdirp (absPy env (pyParent (pathJoinStr app m.icon_relpath))),
                .writeFile (absPy env (pathJoinStr app m.icon_relpath)) c] ∧
        lookupFileAbs fs (absPy env (parsePyPath m.backup_path)) = some c) := by
  have hrw : restore env fs ref = restoreWith env fs app m := by
    simp only [restore, hf, hp, hc, hm]
  constructor
  · intro hex
    rw [hrw]
    simp only [restoreWith]
    rw [hex]
    simp
  · intro l line h
    rw [hrw] at h
    simp only [restoreWith] at h
    cases hex : pathExists env fs (parsePyPath m.backup_path) with
    | false => simp [hex] at h
    | true =>
      simp only [hex, if_true, ite_true] at h
      cases h5 : copy2Content env
          (applyOp fs (Op.mkdirp (absPy env (pyParent (pathJoinStr app m.icon_relpath)))))
          (parsePyPath m.backup_path) with
      | error e => simp [h5] at h
      | ok c =>
        simp only [h5, Prod.mk.injEq] at h
        refine ⟨c, h.1.symm, ?_⟩
        have hl := copy2Content_ok env _ _ c h5
        rw [lookup_after_mkdirp] at hl
        · exact hl
        · by_cases heq : absPy env (parsePyPath m.backup_path) =
              absPy env (pyParent (pathJoinStr app m.icon_relpath))
          · left
            rw [← heq]
            exact hex
          · right
            exact fun hh => heq (by rw [hh])

def c6MissFS : FS := [
  (["Apps", "Foo.app", "Contents", "Info.plist"], .plist c5Info),
  (["Apps", "Foo.app", "Contents", "Resources", "ic.icns"], .bytes "ICON"),
  (["data", "iconkeep", "backups", "com.foo", "manifest.json"], .manifest c5Rec)]

/-- Witness for C6: with the manifest present but its backup icon file
deleted, restore fails with MissingBackupFile and performs no write. -/
theorem c6_restore_target_witness :
    loadManifest wEnv c6MissFS
      [⟨true, ["data", "iconkeep", "backups", "com.foo", "manifest.json"]⟩,
       ⟨true, ["data", "iconkeep", "backups", "Foo", "manifest.json"]⟩,
       ⟨true, ["apps", "foo", "manifest.json"]⟩] = .ok c5Rec ∧
    restore wEnv c6MissFS "/Apps/Foo.app" =
      ([], .error (.ik .missingBackup
        ("Backup icon not found at " ++
         pathToStr (parsePyPath c5Rec.backup_path)))) :=
  ⟨rfl,
   (c6_restore_target wEnv c6MissFS "/Apps/Foo.app" ⟨true, ["Apps", "Foo.app"]⟩
      c5Info _ c5Rec rfl rfl rfl rfl).1 rfl⟩

/-! ### Claim C9: the Bundle Locator -/

lemma find?_eq_head_filter {α : Type} (l : List α) (p : α → Bool) :
    l.find? p = (l.filter p).head? := by
  induction l with
  | nil => rfl
  | cons x xs ih =>
    by_cases hx : p x = true
    · rw [List.find?_cons_of_pos _ hx, List.filter_cons_of_pos hx]
      rfl
    · rw [List.find?_cons_of_neg _ hx, List.filter_cons_of_neg hx, ih]

lemma mem_allPathsAbs {fs : FS} {q : List String} (h : q ∈ allPathsAbs fs) :
    pathExistsAbs fs q = true := by
  unfold allPathsAbs at h
  rw [List.mem_dedup, List.mem_flatMap] at h
  obtain ⟨e, he, hq⟩ := h
  unfold keyPrefixes at hq
  rw [List.mem_map] at hq
  obtain ⟨i, _, hi⟩ := hq
  unfold pathExistsAbs
  rw [List.any_eq_true]
  refine ⟨e, he, ?_⟩
  rw [List.isPrefixOf_iff_prefix, ← hi]
  exact List.take_prefix i e.1

lemma matchesIn_empty_of_not_exists (env : Env) (fs : FS) (target : String)
    (root : PyPath) (h : pathExists env fs root = false) :
    matchesIn env fs target root = [] := by
  unfold matchesIn rglobApp
  rw [List.eq_nil_iff_forall_not_mem]
  intro b hb
  rw [List.mem_filter, List.mem_map] at hb
  obtain ⟨⟨q, hq, _⟩, _⟩ := hb
  rw [List.mem_filter] at hq
  obtain ⟨hqall, hqcond⟩ := hq
  have hqex := mem_allPathsAbs hqall
  simp only [Bool.and_eq_true] at hqcond
  have hpre : (absPy env root).isPrefixOf q = true := hqcond.1.1
  unfold pathExists pathExistsAbs at h
  unfold pathExistsAbs at hqex
  rw [List.any_eq_true] at hqex
  obtain ⟨e, he, hqe⟩ := hqex
  have : (absPy env root).isPrefixOf e.1 = true := by
    rw [List.isPrefixOf_iff_prefix] at hpre hqe ⊢
    exact hpre.trans hqe
  have : fs.any (fun e => (absPy env root).isPrefixOf e.1) = true := by
    rw [List.any_eq_true]
    exact ⟨e, he, this⟩
  rw [this] at h
  exact Bool.true_eq_false.mp h

/-- The search loop returns NotFound exactly when every root is
matchless, and otherwise an element of the first root with a match. -/
lemma searchRoots_spec (env : Env) (fs : FS) (ref : String) (target : String) :
    ∀ roots : List PyPath,
      (searchRoots env fs ref target roots =
          .error (.ik .notFound ("Could not find app bundle for " ++ reprStr ref)) ↔
        ∀ root ∈ roots, matchesIn env fs target root = []) ∧
      (∀ b, searchRoots env fs ref target roots = .ok b →
        ∃ i : Fin roots.length,
          b ∈ matchesIn env fs target (roots.get i) ∧
          ∀ j : Fin roots.length, j.val < i.val →
            matchesIn env fs target (roots.get j) = []) := by
  intro roots
  induction roots with
  | nil =>
    refine ⟨by simp [searchRoots], fun b hb => ?_⟩
    simp [searchRoots] at hb
  | cons root rest ih =>
    have hstep : searchRoots env fs ref target (root :: rest) =
        match matchesIn env fs target root with
        | b :: _ => .ok b
        | [] => searchRoots env fs ref target rest := by
      conv_lhs => rw [searchRoots]
      by_cases hex : pathExists env fs root = true
      · rw [if_pos hex, find?_eq_head_filter]
        unfold matchesIn
        cases (rglobApp env fs root).filter
            (fun b => normalizeAppName (pyName b) = target) with
        | nil => rfl
        | cons b bs => rfl
      · have hex2 : pathExists env fs root = false := by simpa using hex
        rw [if_neg hex, matchesIn_empty_of_not_exists env fs target root hex2]
    cases hm : matchesIn env fs target root with
    | cons b0 bs =>
      rw [hm] at hstep
      constructor
      · rw [hstep]
        constructor
        · intro hcontr
          exact absurd hcontr (by simp)
        · intro hall
          have := hall root (List.mem_cons_self root rest)
          rw [this] at hm
          exact absurd hm (by simp)
      · intro b hb
        rw [hstep] at hb
        simp only [Except.ok.injEq] at hb
        refine ⟨⟨0, by simp⟩, ?_, ?_⟩
        · simp only [List.get]
          rw [hm, ← hb]
          exact List.mem_cons_self b0 bs
        · intro j hj
          exact absurd hj (by simp)
    | nil =>
      rw [hm] at hstep
      constructor
      · rw [hstep, (ih).1]
        constructor
        · intro hall root2 hroot2
          rcases List.mem_cons.mp hroot2 with h | h
          · rw [h]; exact hm
          · exact hall root2 h
        · intro hall root2 hroot2
          exact hall root2 (List.mem_cons_of_mem root hroot2)
      · intro b hb
        rw [hstep] at hb
        obtain ⟨i, hmem, hearlier⟩ := (ih).2 b hb
        refine ⟨⟨i.val + 1, by simp [i.isLt]⟩, ?_, ?_⟩
        · exact hmem
        · intro j hj
          match j with
          | ⟨0, _⟩ => simp [hm]
          | ⟨jv + 1, hjlt⟩ =>
            have : jv < i.val := by simpa using hj
            have := hearlier ⟨jv, by simpa using hjlt⟩ this
            simpa using this

/-- A match produced by the search satisfies the claim's conditions:
its name ends in ".app" and normalizes to the target. -/
lemma mem_matchesIn_props {env : Env} {fs : FS} {target : String} {root b : PyPath}
    (h : b ∈ matchesIn env fs target root) :
    normalizeAppName (pyName b) = target ∧ endsWithStr (pyName b) ".app" = true := by
  unfold matchesIn at h
  rw [List.mem_filter] at h
  obtain ⟨hglob, hnorm⟩ := h
  refine ⟨by simpa using hnorm, ?_⟩
  unfold rglobApp at hglob
  rw [List.mem_map] at hglob
  obtain ⟨q, hq, hb⟩ := hglob
  rw [List.mem_filter] at hq
  obtain ⟨_, hcond⟩ := hq
  simp only [Bool.and_eq_true, decide_eq_true_eq] at hcond
  have hlen : (absPy env root).length < q.length := hcond.1.2
  have hdrop : q.drop (absPy env root).length ≠ [] := by
    rw [Ne, List.drop_eq_nil_iff]
    omega
  have hname : pyName b = q.getLast?.getD "" := by
    rw [← hb]
    unfold pyName
    simp only
    rw [List.getLast?_append]
    have : (q.drop (absPy env root).length).getLast? = q.getLast? := by
      conv_rhs => rw [← List.take_append_drop (absPy env root).length q]
      rw [List.getLast?_append]
      cases hlast : (q.drop (absPy env root).length).getLast? with
      | none => exact absurd (List.getLast?_eq_none_iff.mp hlast) hdrop
      | some x => rfl
    rw [this]
    cases hlast : q.getLast? with
    | none =>
      exact absurd (List.getLast?_eq_none_iff.mp hlast)
        (by intro hq2; rw [hq2] at hlen; simp at hlen)
    | some x => rfl
  rw [hname]
  exact hcond.2

/-- C9: the Bundle Locator.  When the expanded reference exists on
disk it is returned if it has the ".app" suffix, else the first
ancestor (walking outward) with that suffix, else InvalidBundle.  When
it does not exist, the fixed roots /Applications, /System/Applications,
~/Applications are searched in order for a bundle whose normalized
name matches the normalized reference: NotFound exactly when every
root is matchless, and otherwise a match from the first root that has
one. -/
theorem c9_locate (env : Env) (fs : FS) (ref : String) (cand : PyPath)
    (hx : expandUser env (parsePyPath ref) = .ok cand) :
    (pathExists env fs cand = true →
      findAppBundle env fs ref =
        (if pySuffix cand = ".app" then .ok cand
         else
           match (pyParents cand).find? (fun par => pySuffix par = ".app") with
           | some par => .ok par
           | none =>
             .error (.ik .invalidBundle
               (reprStr ref ++ " exists but is not inside an .app bundle")))) ∧
    (pathExists env fs cand = false →
      (findAppBundle env fs ref =
          .error (.ik .notFound ("Could not find app bundle for " ++ reprStr ref)) ↔
        ∀ root ∈ appSearchDirs env,
          matchesIn env fs (normalizeAppName ref) root = []) ∧
      (∀ b, findAppBundle env fs ref = .ok b →
        normalizeAppName (pyName b) = normalizeAppName ref ∧
        endsWithStr (pyName b) ".app" = true ∧
        ∃ i : Fin (appSearchDirs env).length,
          b ∈ matchesIn env fs (normalizeAppName ref) ((appSearchDirs env).get i) ∧
          ∀ j : Fin (appSearchDirs env).length, j.val < i.val →
            matchesIn env fs (normalizeAppName ref) ((appSearchDirs env).get j) = [])) := by
  constructor
  · intro hex
    simp only [findAppBundle, hx, Bind.bind, Except.bind, hex, if_true, ite_true]
  · intro hex
    have hfb : findAppBundle env fs ref =
        searchRoots env fs ref (normalizeAppName ref) (appSearchDirs env) := by
      simp only [findAppBundle, hx, Bind.bind, Except.bind, hex]
      simp
    rw [hfb]
    refine ⟨(searchRoots_spec env fs ref (normalizeAppName ref) (appSearchDirs env)).1,
      fun b hb => ?_⟩
    obtain ⟨i, hmem, hearlier⟩ :=
      (searchRoots_spec env fs ref (normalizeAppName ref) (appSearchDirs env)).2 b hb
    obtain ⟨hn, he⟩ := mem_matchesIn_props hmem
    exact ⟨hn, he, i, hmem, hearlier⟩

def c9FS : FS := [
  (["Applications", "Bar.app", "Contents", "Info.plist"],
   .plist [("CFBundleIconFile", .str "AppIcon.icns")]),
  (["Applications", "Bar.app", "Contents", "Resources", "AppIcon.icns"], .bytes "B")]

/-- Witness for C9: a name with no match yields NotFound, and an
existing bundle path is returned directly. -/
theorem c9_locate_witness :
    findAppBundle wEnv c9FS "nope" =
      .error (.ik .notFound ("Could not find app bundle for " ++ reprStr "nope")) ∧
    findAppBundle wEnv c9FS "/Applications/Bar.app" =
      .ok ⟨true, ["Applications", "Bar.app"]⟩ := by
  constructor
  · exact ((c9_locate wEnv c9FS "nope" ⟨false, ["nope"]⟩ rfl).2 rfl).1.mpr (by decide)
  · have h := (c9_locate wEnv c9FS "/Applications/Bar.app"
      ⟨true, ["Applications", "Bar.app"]⟩ rfl).1 rfl
    exact h.trans (by rfl)

/-! ### Claim C8: batch mode -/

def c8FS : FS := [
  (["cfg", "iconkeep", "apps"], .bytes "/A/Bad.app\n/A/Good.app\n"),
  (["A", "Bad.app", "Contents", "Info.plist"], .bytes "garbage"),
  (["A", "Good.app", "Contents", "Info.plist"],
   .plist [("CFBundleIconFile", .str "i.icns")]),
  (["A", "Good.app", "Contents", "Resources", "i.icns"], .bytes "g")]

/-- C8 counterexample: a two-entry app list whose first entry fails
with a malformed Info.plist (a plistlib parse error, which is not an
IconkeepError and is caught by nothing in main).  The second entry
would succeed on its own, yet the batch stops after the first entry:
the process dies with a traceback instead of exiting 1, and no
"Error: "-prefixed line is reported.  So "every entry is attempted
regardless of earlier failures" is false on the code. -/
theorem c8_batch_counterexample :
    loadAppList wEnv c8FS = .ok ["/A/Bad.app", "/A/Good.app"] ∧
    (backup wEnv c8FS "/A/Good.app").2 =
      .ok "Backed up icon for Good -> /data/iconkeep/backups/Good/icon.icns" ∧
    (runEntries (opFor .backup) wEnv c8FS ["/A/Bad.app", "/A/Good.app"]).processed =
      ["/A/Bad.app"] ∧
    (mainRun .backup none wEnv c8FS).exit = none ∧
    (mainRun .backup none wEnv c8FS).stderr = [] :=
  ⟨rfl, rfl, rfl, rfl, rfl⟩

lemma runEntries_processed (op : Env → FS → String → List Op × Except Err String)
    (env : Env) :
    ∀ (apps : List String) (fs : FS),
      (runEntries op env fs apps).crashed = none →
      (runEntries op env fs apps).processed = apps := by
  intro apps
  induction apps with
  | nil => intro fs _; rfl
  | cons a rest ih =>
    intro fs hnc
    unfold runEntries at hnc ⊢
    cases hr : (op env fs a).2 with
    | ok line =>
      simp only [hr] at hnc ⊢
      rw [ih _ hnc]
    | error e =>
      cases e with
      | ik k m =>
        simp only [hr] at hnc ⊢
        rw [ih _ hnc]
      | crash w => simp [hr] at hnc

/-- C8 (amended): in batch mode every entry is attempted regardless of
earlier failures, each failure is reported to the error stream
prefixed "Error: ", and the process exits 1 when any entry failed and
0 when all succeeded — PROVIDED every per-entry failure is an
IconkeepError; an entry that raises anything else (e.g. a malformed
Info.plist) aborts the batch with an uncaught exception. -/
theorem c8_batch_amended (cmd : Cmd) (env : Env) (fs : FS) (apps : List String)
    (hload : loadAppList env fs = .ok apps)
    (hnocrash : (runEntries (opFor cmd) env fs apps).crashed = none) :
    (runEntries (opFor cmd) env fs apps).processed = apps ∧
    mainRun cmd none env fs =
      ⟨(runEntries (opFor cmd) env fs apps).fs,
       (runEntries (opFor cmd) env fs apps).outs,
       (runEntries (opFor cmd) env fs apps).failures.map
         (fun f => "Error: " ++ f.1 ++ ": " ++ errMsg f.2),
       some (if (runEntries (opFor cmd) env fs apps).failures = [] then 0 else 1)⟩ ∧
    (∀ line ∈ (runEntries (opFor cmd) env fs apps).failures.map
        (fun f => "Error: " ++ f.1 ++ ": " ++ errMsg f.2),
      ("Error: ").data.isPrefixOf line.data = true) := by
  refine ⟨runEntries_processed (opFor cmd) env apps fs hnocrash, ?_, ?_⟩
  · unfold mainRun
    simp only [hload]
    rw [hnocrash]
    cases hfail : (runEntries (opFor cmd) env fs apps).failures with
    | nil => simp [hfail]
    | cons f rest => simp [hfail]
  · intro line hline
    rw [List.mem_map] at hline
    obtain ⟨f, _, hf⟩ := hline
    rw [← hf]
    rw [List.isPrefixOf_iff_prefix]
    have : ("Error: " ++ f.1 ++ ": " ++ errMsg f.2).data =
        ("Error: ").data ++ (f.1 ++ ": " ++ errMsg f.2).data := by
      simp [String.data_append]
    rw [this]
    exact List.prefix_append _ _

def c8wFS : FS := [
  (["cfg", "iconkeep", "apps"], .bytes "/A/Good.app\nmissingapp\n"),
  (["A", "Good.app", "Contents", "Info.plist"],
   .plist [("CFBundleIconFile", .str "i.icns")]),
  (["A", "Good.app", "Contents", "Resources", "i.icns"], .bytes "g")]

/-- Witness for the amended C8: a batch whose second entry fails with
the tool's own NotFound error still attempts both entries. -/
theorem c8_batch_amended_witness :
    loadAppList wEnv c8wFS = .ok ["/A/Good.app", "missingapp"] ∧
    (runEntries (opFor .backup) wEnv c8wFS ["/A/Good.app", "missingapp"]).crashed = none ∧
    (runEntries (opFor .backup) wEnv c8wFS ["/A/Good.app", "missingapp"]).processed =
      ["/A/Good.app", "missingapp"] :=
  ⟨rfl, rfl, (c8_batch_amended .backup wEnv c8wFS ["/A/Good.app", "missingapp"] rfl rfl).1⟩

/-! ### Claim C1: infrastructure.
Well-formedness of stored components and the string round-trip. -/

/-- The whole filesystem has well-formed entry keys. -/
def fsWF (fs : FS) : Bool := fs.all fun e => wfComps e.1

lemma wf_emitComp (acc : List Char) (hacc : acc.contains '/' = false) :
    wfComps (emitComp acc) = true := by
  unfold emitComp
  by_cases h : acc = [] ∨ acc = ['.']
  · rw [if_pos h]
    rfl
  · rw [if_neg h]
    push_neg at h
    unfold wfComps wfComp
    simp only [List.all_cons, List.all_nil, Bool.and_true, Bool.and_eq_true,
      Bool.not_eq_true']
    refine ⟨⟨?_, ?_⟩, hacc⟩
    · simpa [List.isEmpty_iff] using h.1
    · simpa using h.2

lemma wf_splitCompsAux (cs : List Char) :
    ∀ acc, acc.contains '/' = false → wfComps (splitCompsAux acc cs) = true := by
  induction cs with
  | nil => intro acc hacc; exact wf_emitComp acc hacc
  | cons c rest ih =>
    intro acc hacc
    unfold splitCompsAux
    by_cases hc : c = '/'
    · rw [if_pos hc]
      unfold wfComps
      rw [List.all_append]
      rw [Bool.and_eq_true]
      exact ⟨wf_emitComp acc hacc, ih [] rfl⟩
    · rw [if_neg hc]
      refine ih (acc ++ [c]) ?_
      have : ('/' ∈ acc ++ [c]) = False := by
        simp only [List.mem_append, List.mem_singleton, eq_iff_iff, iff_false, not_or]
        constructor
        · intro hmem
          have : acc.contains '/' = true := by
            rw [List.contains_eq_any_beq]
            rw [List.any_eq_true]
            exact ⟨'/', hmem, by simp⟩
          rw [this] at hacc
          exact Bool.true_eq_false.mp hacc
        · intro hh
          exact hc hh.symm
      rw [List.contains_eq_any_beq, List.any_eq_false]
      intro x hx
      simp only [beq_iff_eq]
      intro hxe
      rw [← hxe] at hx
      rw [this] at hx
      exact hx

lemma wf_splitComps (s : String) : wfComps (splitComps s) = true :=
  wf_splitCompsAux s.data [] rfl

lemma wfComps_append {a b : List String} (ha : wfComps a = true) (hb : wfComps b = true) :
    wfComps (a ++ b) = true := by
  unfold wfComps at *
  rw [List.all_append, ha, hb]
  rfl

lemma wfComps_of_append {a b : List String} (h : wfComps (a ++ b) = true) :
    wfComps a = true ∧ wfComps b = true := by
  unfold wfComps at h ⊢
  rw [List.all_append, Bool.and_eq_true] at h
  exact h

lemma wf_pathJoinStr (p : PyPath) (s : String) (h : wfComps p.comps = true) :
    wfComps (pathJoinStr p s).comps = true := by
  unfold pathJoinStr
  by_cases habs : (parsePyPath s).isAbs = true
  · simp only [habs, if_true, ite_true]
    exact wf_splitComps s
  · have habs2 : (parsePyPath s).isAbs = false := by simpa using habs
    simp only [habs2, Bool.false_eq_true, if_neg, ite_false]
    exact wfComps_append h (wf_splitComps s)

lemma wf_expandUser (env : Env) (p q : PyPath) (hp : wfComps p.comps = true)
    (h : expandUser env p = .ok q) : wfComps q.comps = true := by
  unfold expandUser at h
  by_cases hab : p.isAbs = true
  · rw [if_pos hab] at h
    simp only [Except.ok.injEq] at h
    rw [← h]
    exact hp
  · rw [if_neg hab] at h
    cases hcs : p.comps with
    | nil =>
      simp only [hcs] at h
      simp only [Except.ok.injEq] at h
      rw [← h]
      exact hp
    | cons c rest =>
      simp only [hcs] at h
      by_cases hc : c = "~"
      · rw [if_pos hc] at h
        simp only [Except.ok.injEq] at h
        rw [← h]
        refine wfComps_append (wf_splitComps _) ?_
        rw [hcs] at hp
        unfold wfComps at hp ⊢
        simp only [List.all_cons, Bool.and_eq_true] at hp
        exact hp.2
      · rw [if_neg hc] at h
        by_cases ht : c.data.head? = some '~'
        · rw [if_pos ht] at h
          simp at h
        · rw [if_neg ht] at h
          simp only [Except.ok.injEq] at h
          rw [← h]
          exact hp

lemma wf_dataDirE (env : Env) (dd : PyPath) (h : dataDirE env = .ok dd) :
    wfComps dd.comps = true := by
  unfold dataDirE xdgDir at h
  cases hx : env.xdgDataHome with
  | some s =>
    simp only [hx] at h
    cases hexp : expandUser env (parsePyPath s) with
    | error e => simp [hexp, Bind.bind, Except.bind] at h
    | ok base =>
      simp only [hexp, Bind.bind, Except.bind, Except.ok.injEq] at h
      rw [← h]
      exact wf_pathJoinStr _ _ (wf_pathJoinStr _ _
        (wf_expandUser env _ base (wf_splitComps s) hexp))
  | none =>
    simp only [hx] at h
    cases hexp : expandUser env
        (pathJoinStr (pathJoinStr (homePath env) ".local") "share") with
    | error e => simp [hexp, Bind.bind, Except.bind] at h
    | ok base =>
      simp only [hexp, Bind.bind, Except.bind, Except.ok.injEq] at h
      rw [← h]
      refine wf_pathJoinStr _ _ (wf_pathJoinStr _ _ ?_)
      exact wf_expandUser env _ base
        (wf_pathJoinStr _ _ (wf_pathJoinStr _ _ (wf_splitComps _))) hexp

lemma splitCompsAux_slash (xs : List Char) :
    ∀ acc ys, xs.contains '/' = false →
      splitCompsAux acc (xs ++ '/' :: ys) = emitComp (acc ++ xs) ++ splitCompsAux [] ys := by
  induction xs with
  | nil =>
    intro acc ys _
    simp [splitCompsAux]
  | cons x xs ih =>
    intro acc ys hx
    simp only [List.contains_cons, Bool.or_eq_false_iff] at hx
    have hxs : ¬(x = '/') := by
      intro hh
      subst hh
      simpa using hx.1
    rw [List.cons_append]
    show splitCompsAux acc (x :: (xs ++ '/' :: ys)) = _
    rw [splitCompsAux, if_neg hxs, ih (acc ++ [x]) ys hx.2, List.append_assoc]
    rfl

/-- Splitting the join of well-formed components recovers them. -/
lemma splitCompsAux_join (cs : List String) (h : wfComps cs = true) :
    splitCompsAux [] (joinCompsChars cs) = cs := by
  induction cs with
  | nil => rfl
  | cons c rest ih =>
    unfold wfComps at h
    simp only [List.all_cons, Bool.and_eq_true] at h
    have hc := h.1
    simp only [wfComp, Bool.and_eq_true, Bool.not_eq_true'] at hc
    have hemit : emitComp c.data = [c] := by
      unfold emitComp
      rw [if_neg, string_eta]
      simp only [not_or]
      constructor
      · intro hh
        have := hc.1.1
        rw [hh] at this
        simp at this
      · intro hh
        have := hc.1.2
        rw [hh] at this
        simp at this
    cases rest with
    | nil =>
      show splitCompsAux [] c.data = [c]
      rw [splitCompsAux_no_slash c.data [] hc.2]
      simpa using hemit
    | cons r rr =>
      show splitCompsAux [] (c.data ++ '/' :: joinCompsChars (r :: rr)) = c :: r :: rr
      rw [splitCompsAux_slash c.data [] _ hc.2]
      simp only [List.nil_append, hemit]
      rw [ih (by unfold wfComps; exact h.2)]
      rfl

lemma pypath_eta (p : PyPath) : (⟨p.isAbs, p.comps⟩ : PyPath) = p := by cases p; rfl

/-- parse (str p) = p for paths with well-formed components. -/
lemma parse_pathToStr (p : PyPath) (h : wfComps p.comps = true) :
    parsePyPath (pathToStr p) = p := by
  obtain ⟨ab, cs⟩ := p
  replace h : wfComps cs = true := h
  cases ab with
  | true =>
    show parsePyPath ⟨'/' :: joinCompsChars cs⟩ = ⟨true, cs⟩
    have hdata : (⟨'/' :: joinCompsChars cs⟩ : String).data = '/' :: joinCompsChars cs := rfl
    have hcomps : splitComps (⟨'/' :: joinCompsChars cs⟩ : String) = cs := by
      unfold splitComps
      rw [hdata, splitCompsAux, if_pos rfl]
      show emitComp [] ++ splitCompsAux [] (joinCompsChars cs) = cs
      rw [splitCompsAux_join cs h]
      rfl
    unfold parsePyPath
    rw [hcomps, hdata]
    simp
  | false =>
    cases hcs : cs with
    | nil => rfl
    | cons c rest =>
      rw [hcs] at h
      have hc2 : wfComp c = true := by
        unfold wfComps at h
        simp only [List.all_cons, Bool.and_eq_true] at h
        exact h.1
      have hcne : c.data ≠ [] := by
        simp only [wfComp, Bool.and_eq_true, Bool.not_eq_true'] at hc2
        intro hh
        have := hc2.1.1
        rw [hh] at this
        simp at this
      show parsePyPath ⟨joinCompsChars (c :: rest)⟩ = ⟨false, c :: rest⟩
      have hdata : (⟨joinCompsChars (c :: rest)⟩ : String).data =
          joinCompsChars (c :: rest) := rfl
      have hcomps : splitComps (⟨joinCompsChars (c :: rest)⟩ : String) = c :: rest := by
        unfold splitComps
        rw [hdata]
        exact splitCompsAux_join (c :: rest) h
      have hjoin : (joinCompsChars (c :: rest)).head? = c.data.head? := by
        cases rest with
        | nil => rfl
        | cons r rr =>
          show (c.data ++ '/' :: joinCompsChars (r :: rr)).head? = c.data.head?
          rw [List.head?_append]
          cases hh : c.data with
          | nil => exact absurd hh hcne
          | cons a t => rfl
      have hhead : ((⟨joinCompsChars (c :: rest)⟩ : String).data.head? = some '/') = False := by
        rw [hdata, hjoin]
        exact head_ne_slash hc2
      unfold parsePyPath
      rw [hcomps]
      simp [hhead]

/-! ### C1 infrastructure: frame lemmas for the mutation trace -/

lemma join_pathToStr_rel (app : PyPath) (rest : List String) (h : wfComps rest = true) :
    pathJoinStr app (pathToStr ⟨false, rest⟩) = ⟨app.isAbs, app.comps ++ rest⟩ := by
  unfold pathJoinStr
  rw [parse_pathToStr ⟨false, rest⟩ h]
  simp

lemma pyParent_join_plain (p : PyPath) (n : String) (hn : wfComp n = true) :
    pyParent (pathJoinStr p n) = p := by
  rw [pathJoinStr_plain p hn]
  unfold pyParent
  simp

lemma absPy_join (env : Env) (p : PyPath) (s : String)
    (hrel : (parsePyPath s).isAbs = false) :
    absPy env (pathJoinStr p s) = absPy env p ++ splitComps s := by
  unfold pathJoinStr absPy
  simp only [hrel, Bool.false_eq_true, if_neg, ite_false]
  cases hab : p.isAbs <;> simp [hab, List.append_assoc] <;> rfl

lemma exists_of_isPrefixOf {fs : FS} {a b : List String}
    (hpre : a.isPrefixOf b = true) (hex : pathExistsAbs fs b = true) :
    pathExistsAbs fs a = true := by
  unfold pathExistsAbs at hex ⊢
  rw [List.any_eq_true] at hex ⊢
  obtain ⟨e, he, hbe⟩ := hex
  refine ⟨e, he, ?_⟩
  rw [List.isPrefixOf_iff_prefix] at hpre hbe ⊢
  exact hpre.trans hbe

lemma pathExistsAbs_applyOp (fs : FS) (op : Op) (a : List String) :
    pathExistsAbs (applyOp fs op) a = (pathExistsAbs fs a || a.isPrefixOf op.key) := by
  cases op with
  | mkdirp k =>
    show pathExistsAbs
        (if pathExistsAbs fs k = true then fs else fs ++ [(k, Content.dir)]) a =
      (pathExistsAbs fs a || a.isPrefixOf k)
    by_cases hex : pathExistsAbs fs k = true
    · rw [if_pos hex]
      cases hpre : a.isPrefixOf k with
      | false => simp
      | true => rw [exists_of_isPrefixOf hpre hex]; rfl
    · rw [if_neg hex]
      unfold pathExistsAbs
      rw [List.any_append]
      congr 1
      simp
  | writeFile k c =>
    show pathExistsAbs (fs.filter (fun e => !(e.1 = k : Bool)) ++ [(k, c)]) a =
      (pathExistsAbs fs a || a.isPrefixOf k)
    unfold pathExistsAbs
    rw [List.any_append]
    have h2 : (([(k, c)] : FS).any fun e => a.isPrefixOf e.1) = a.isPrefixOf k := by simp
    rw [h2]
    rw [Bool.eq_iff_iff]
    simp only [Bool.or_eq_true, List.any_eq_true]
    constructor
    · rintro (⟨e, he, hae⟩ | hk)
      · rw [List.mem_filter] at he
        exact Or.inl ⟨e, he.1, hae⟩
      · exact Or.inr hk
    · rintro (⟨e, he, hae⟩ | hk)
      · by_cases hek : e.1 = k
        · right
          rw [hek] at hae
          exact hae
        · left
          refine ⟨e, List.mem_filter.mpr ⟨he, ?_⟩, hae⟩
          simp [hek]
      · exact Or.inr hk

lemma pathExistsAbs_applyOps (ops : List Op) :
    ∀ (fs : FS) (a : List String),
      pathExistsAbs (applyOps ops fs) a =
        (pathExistsAbs fs a || (ops.map Op.key).any (a.isPrefixOf ·)) := by
  induction ops with
  | nil => intro fs a; simp [applyOps]
  | cons op rest ih =>
    intro fs a
    show pathExistsAbs (applyOps rest (applyOp fs op)) a = _
    rw [ih (applyOp fs op) a, pathExistsAbs_applyOp]
    simp [Bool.or_assoc]

lemma find?_filter_sub {α : Type} (l : List α) (p q : α → Bool)
    (h : ∀ x, p x = true → q x = true) :
    (l.filter q).find? p = l.find? p := by
  induction l with
  | nil => rfl
  | cons x xs ih =>
    by_cases hp : p x = true
    · rw [List.filter_cons_of_pos (h x hp), List.find?_cons_of_pos _ hp,
        List.find?_cons_of_pos _ hp]
    · by_cases hq : q x = true
      · rw [List.filter_cons_of_pos hq, List.find?_cons_of_neg _ hp,
          List.find?_cons_of_neg _ hp, ih]
      · rw [List.filter_cons_of_neg (by simpa using hq), List.find?_cons_of_neg _ hp, ih]

lemma lookupFileAbs_applyOp_ne (fs : FS) (op : Op) (a : List String) (h : ¬(a = op.key)) :
    lookupFileAbs (applyOp fs op) a = lookupFileAbs fs a := by
  cases op with
  | mkdirp k => exact lookup_after_mkdirp fs k a (Or.inr h)
  | writeFile k c =>
    show lookupFileAbs (fs.filter (fun e => !(e.1 = k : Bool)) ++ [(k, c)]) a =
      lookupFileAbs fs a
    unfold lookupFileAbs
    rw [List.find?_append]
    have h2 : (([(k, c)] : FS).find? fun e => e.1 = a) = none := by
      simp only [List.find?]
      have : ¬(k = a) := fun hh => h (hh.symm)
      simp [this]
    rw [h2]
    rw [find?_filter_sub]
    · cases fs.find? (fun e => e.1 = a) <;> rfl
    · intro x hx
      simp only [decide_eq_true_eq] at hx
      have hk : ¬(a = k) := h
      simp [hx, hk]

lemma lookupFileAbs_applyOps_ne (ops : List Op) :
    ∀ (fs : FS) (a : List String), (∀ k ∈ ops.map Op.key, ¬(a = k)) →
      lookupFileAbs (applyOps ops fs) a = lookupFileAbs fs a := by
  induction ops with
  | nil => intro fs a _; rfl
  | cons op rest ih =>
    intro fs a h
    show lookupFileAbs (applyOps rest (applyOp fs op)) a = _
    rw [ih (applyOp fs op) a (fun k hk => h k (by simp [hk])),
      lookupFileAbs_applyOp_ne fs op a (h op.key (by simp))]

lemma lookupFileAbs_writeFile_self (fs : FS) (k : List String) (c : Content) :
    lookupFileAbs (applyOp fs (.writeFile k c)) k = some c := by
  show lookupFileAbs (fs.filter (fun e => !(e.1 = k : Bool)) ++ [(k, c)]) k = some c
  unfold lookupFileAbs
  rw [List.find?_append]
  have h1 : ((fs.filter fun e => !(e.1 = k : Bool)).find? fun e => e.1 = k) = none := by
    rw [List.find?_eq_none]
    intro e he
    rw [List.mem_filter] at he
    have := he.2
    simp only [Bool.not_eq_true', decide_eq_false_iff_not] at this
    simp [this]
  rw [h1]
  simp [List.find?]

/-! ### C1 infrastructure: invariance of the bundle search under the
backup's writes -/

lemma filter_dedup_comm {α : Type} [DecidableEq α] (l : List α) (p : α → Bool) :
    (l.dedup).filter p = (l.filter p).dedup := by
  induction l with
  | nil => rfl
  | cons x xs ih =>
    by_cases hm : x ∈ xs
    · rw [List.dedup_cons_of_mem hm]
      by_cases hp : p x = true
      · rw [List.filter_cons_of_pos hp,
          List.dedup_cons_of_mem (List.mem_filter.mpr ⟨hm, hp⟩), ih]
      · rw [List.filter_cons_of_neg (by simpa using hp), ih]
    · rw [List.dedup_cons_of_not_mem hm]
      by_cases hp : p x = true
      · rw [List.filter_cons_of_pos hp, List.filter_cons_of_pos hp,
          List.dedup_cons_of_not_mem (fun hmem => hm (List.mem_filter.mp hmem).1), ih]
      · rw [List.filter_cons_of_neg (by simpa using hp),
          List.filter_cons_of_neg (by simpa using hp), ih]

lemma mem_keyPrefixes {e : List String × Content} {q : List String}
    (h : q ∈ keyPrefixes e) : q.isPrefixOf e.1 = true := by
  unfold keyPrefixes at h
  rw [List.mem_map] at h
  obtain ⟨i, _, hi⟩ := h
  rw [List.isPrefixOf_iff_prefix, ← hi]
  exact List.take_prefix i e.1

lemma filter_keyPrefixes_nil {k : List String} {c : Content} {P : List String → Bool}
    (hPk : ∀ q, q.isPrefixOf k = true → P q = false) :
    (keyPrefixes (k, c)).filter P = [] := by
  rw [List.filter_eq_nil_iff]
  intro q hq
  have := mem_keyPrefixes hq
  rw [hPk q this]
  simp

lemma filter_flatMap_entry_drop (fs : FS) (k : List String) (P : List String → Bool)
    (hPk : ∀ q, q.isPrefixOf k = true → P q = false) :
    ((fs.filter fun e => !(e.1 = k : Bool)).flatMap keyPrefixes).filter P =
      (fs.flatMap keyPrefixes).filter P := by
  induction fs with
  | nil => rfl
  | cons e rest ih =>
    by_cases hek : e.1 = k
    · rw [List.filter_cons_of_neg (by simp [hek]), ih, List.flatMap_cons,
        List.filter_append]
      have : (keyPrefixes e).filter P = [] := by
        rw [List.filter_eq_nil_iff]
        intro q hq
        have hqk : q.isPrefixOf k = true := by rw [← hek]; exact mem_keyPrefixes hq
        rw [hPk q hqk]
        simp
      rw [this, List.nil_append]
    · rw [List.filter_cons_of_pos (by simp [hek]), List.flatMap_cons, List.flatMap_cons,
        List.filter_append, List.filter_append, ih]

lemma filter_allPathsAbs_applyOp (fs : FS) (op : Op) (P : List String → Bool)
    (hPk : ∀ q, q.isPrefixOf op.key = true → P q = false) :
    (allPathsAbs (applyOp fs op)).filter P = (allPathsAbs fs).filter P := by
  cases op with
  | mkdirp k =>
    show (allPathsAbs (if pathExistsAbs fs k = true then fs
        else fs ++ [(k, Content.dir)])).filter P = _
    by_cases hex : pathExistsAbs fs k = true
    · rw [if_pos hex]
    · rw [if_neg hex]
      unfold allPathsAbs
      rw [filter_dedup_comm, filter_dedup_comm]
      rw [List.flatMap_append]
      rw [List.filter_append]
      have : (([(k, Content.dir)] : FS).flatMap keyPrefixes).filter P = [] := by
        show ((keyPrefixes (k, Content.dir) ++ []).filter P) = []
        rw [List.append_nil]
        exact filter_keyPrefixes_nil hPk
      rw [this, List.append_nil]
  | writeFile k c =>
    show (allPathsAbs ((fs.filter fun e => !(e.1 = k : Bool)) ++ [(k, c)])).filter P = _
    unfold allPathsAbs
    rw [filter_dedup_comm, filter_dedup_comm]
    rw [List.flatMap_append, List.filter_append]
    have h1 : (([(k, c)] : FS).flatMap keyPrefixes).filter P = [] := by
      show ((keyPrefixes (k, c) ++ []).filter P) = []
      rw [List.append_nil]
      exact filter_keyPrefixes_nil hPk
    rw [h1, List.append_nil, filter_flatMap_entry_drop fs k P hPk]

lemma filter_allPathsAbs_applyOps (ops : List Op) (P : List String → Bool) :
    ∀ fs : FS, (∀ k ∈ ops.map Op.key, ∀ q, q.isPrefixOf k = true → P q = false) →
      (allPathsAbs (applyOps ops fs)).filter P = (allPathsAbs fs).filter P := by
  induction ops with
  | nil => intro fs _; rfl
  | cons op rest ih =>
    intro fs h
    show (allPathsAbs (applyOps rest (applyOp fs op))).filter P = _
    rw [ih (applyOp fs op) (fun k hk => h k (by simp [hk]))]
    exact filter_allPathsAbs_applyOp fs op P (h op.key (by simp))

lemma rglobApp_applyOps (env : Env) (fs : FS) (ops : List Op) (root : PyPath)
    (hd : ∀ k ∈ ops.map Op.key, (absPy env root).isPrefixOf k = false) :
    rglobApp env (applyOps ops fs) root = rglobApp env fs root := by
  unfold rglobApp
  rw [filter_allPathsAbs_applyOps ops _ fs]
  intro k hk q hqk
  cases hP : ((absPy env root).isPrefixOf q && (absPy env root).length < q.length &&
      endsWithStr (q.getLast?.getD "") ".app" : Bool) with
  | false => rfl
  | true =>
    simp only [Bool.and_eq_true] at hP
    have h1 : (absPy env root).isPrefixOf k = true := by
      rw [List.isPrefixOf_iff_prefix] at hqk hP ⊢
      exact hP.1.1.trans hqk
    rw [hd k hk] at h1
    exact absurd h1 (by simp)

lemma matchesIn_applyOps (env : Env) (fs : FS) (ops : List Op) (target : String)
    (root : PyPath)
    (hd : ∀ k ∈ ops.map Op.key, (absPy env root).isPrefixOf k = false) :
    matchesIn env (applyOps ops fs) target root = matchesIn env fs target root := by
  unfold matchesIn
  rw [rglobApp_applyOps env fs ops root hd]

lemma pathExists_applyOps_of_disjoint (env : Env) (fs : FS) (ops : List Op) (p : PyPath)
    (hd : ∀ k ∈ ops.map Op.key, (absPy env p).isPrefixOf k = false) :
    pathExists env (applyOps ops fs) p = pathExists env fs p := by
  unfold pathExists
  rw [pathExistsAbs_applyOps]
  have : ((ops.map Op.key).any ((absPy env p).isPrefixOf ·)) = false := by
    rw [List.any_eq_false]
    intro k hk
    rw [hd k hk]
    simp
  rw [this, Bool.or_false]

lemma searchRoots_applyOps (env : Env) (fs : FS) (ops : List Op) (ref target : String) :
    ∀ roots : List PyPath,
      (∀ root ∈ roots, ∀ k ∈ ops.map Op.key, (absPy env root).isPrefixOf k = false) →
      searchRoots env (applyOps ops fs) ref target roots =
        searchRoots env fs ref target roots := by
  intro roots
  induction roots with
  | nil => intro _; rfl
  | cons root rest ih =>
    intro hd
    have hdr := hd root (List.mem_cons_self root rest)
    have hex := pathExists_applyOps_of_disjoint env fs ops root hdr
    have hrg := rglobApp_applyOps env fs ops root hdr
    conv_lhs => rw [searchRoots]
    conv_rhs => rw [searchRoots]
    rw [hex, hrg, ih (fun r hr => hd r (List.mem_cons_of_mem root hr))]

lemma findAppBundle_applyOps (env : Env) (fs : FS) (ops : List Op) (ref : String)
    (cand app : PyPath)
    (hexp : expandUser env (parsePyPath ref) = .ok cand)
    (hfind : findAppBundle env fs ref = .ok app)
    (hd2 : ∀ k ∈ ops.map Op.key, ∀ root ∈ appSearchDirs env,
      (absPy env root).isPrefixOf k = false)
    (hd3 : ∀ k ∈ ops.map Op.key, (absPy env cand).isPrefixOf k = false) :
    findAppBundle env (applyOps ops fs) ref = .ok app := by
  unfold findAppBundle at hfind ⊢
  simp only [hexp, Bind.bind, Except.bind] at hfind ⊢
  by_cases hex : pathExists env fs cand = true
  · have hex2 : pathExists env (applyOps ops fs) cand = true := by
      unfold pathExists at hex ⊢
      rw [pathExistsAbs_applyOps, hex]
      rfl
    rw [hex2]
    rw [hex] at hfind
    exact hfind
  · have hex1 : pathExists env fs cand = false := by simpa using hex
    have hex2 : pathExists env (applyOps ops fs) cand = false := by
      rw [pathExists_applyOps_of_disjoint env fs ops cand hd3, hex1]
    rw [hex1] at hfind
    rw [hex2]
    simp only [Bool.false_eq_true, if_neg, ite_false] at hfind ⊢
    rw [searchRoots_applyOps env fs ops ref _ (appSearchDirs env)
      (fun r hr k hk => hd2 k hk r hr)]
    exact hfind

/-! ### C1 infrastructure: inverting a successful backup -/

lemma backup_inversion (env : Env) (fs : FS) (ref : String) (ops : List Op)
    (line : String) (app : PyPath) (info : List (String × PValue)) (iconPath : PyPath)
    (hfind : findAppBundle env fs ref = .ok app)
    (hinfo : readInfoPlist env fs app = .ok info)
    (hicon : resolveIconPath env fs app info = .ok iconPath)
    (hb : backup env fs ref = (ops, .ok line)) :
    ∃ backupRoot c rel,
      slugJoin env (pget info "CFBundleIdentifier") app = .ok backupRoot ∧
      copy2Content env (applyOp fs (.mkdirp (absPy env backupRoot))) iconPath = .ok c ∧
      pyRelativeTo iconPath app = .ok rel ∧
      ops = [.mkdirp (absPy env backupRoot),
             .writeFile (absPy env (pathJoinStr backupRoot "icon.icns")) c,
             .mkdirp (absPy env (pyParent (pathJoinStr (pyParent (parsePyPath
               (pathToStr (pathJoinStr backupRoot "icon.icns")))) "manifest.json"))),
             .writeFile (absPy env (pathJoinStr (pyParent (parsePyPath
               (pathToStr (pathJoinStr backupRoot "icon.icns")))) "manifest.json"))
               (.manifest ⟨pathToStr app, pget info "CFBundleIdentifier",
                  displayNameOf info app, pathToStr rel,
                  pathToStr (pathJoinStr backupRoot "icon.icns"),
                  env.nowIso ++ "Z"⟩)] := by
  unfold backup at hb
  simp only [hfind, hinfo, hicon] at hb
  cases h4 : slugJoin env (pget info "CFBundleIdentifier") app with
  | error e => simp [h4] at hb
  | ok backupRoot =>
  simp only [h4] at hb
  cases h5 : copy2Content env
      (applyOp fs (Op.mkdirp (absPy env backupRoot))) iconPath with
  | error e => simp [h5] at hb
  | ok c =>
  simp only [h5] at hb
  cases h6 : pyRelativeTo iconPath app with
  | error e => simp [h6] at hb
  | ok rel =>
  simp only [h6, Prod.mk.injEq, Except.ok.injEq] at hb
  exact ⟨backupRoot, c, rel, rfl, h5, rfl, hb.1.symm⟩

/-! ### C1 infrastructure: relating backup's slug to restore's probes -/

lemma wf_slugJoin (env : Env) (bid : Option PValue) (app : PyPath) (br : PyPath)
    (h : slugJoin env bid app = .ok br) : wfComps br.comps = true := by
  unfold slugJoin at h
  cases hdd : dataDirE env with
  | error e => simp [hdd, Bind.bind, Except.bind] at h
  | ok dd =>
    have hwdd := wf_dataDirE env dd hdd
    simp only [hdd, Bind.bind, Except.bind] at h
    cases bid with
    | none =>
      simp only [Except.ok.injEq] at h
      rw [← h]
      exact wf_pathJoinStr _ _ hwdd
    | some v =>
      dsimp only at h
      by_cases ht : truthy v = true
      · rw [if_pos ht] at h
        cases v with
        | str s =>
          simp only [Except.ok.injEq] at h
          rw [← h]
          exact wf_pathJoinStr _ _ hwdd
        | int n => simp at h
        | bool b => simp at h
        | list l => simp at h
        | dict d => simp at h
      · rw [if_neg ht] at h
        simp only [Except.ok.injEq] at h
        rw [← h]
        exact wf_pathJoinStr _ _ hwdd

lemma restoreCandidates_of_slugJoin (env : Env) (bid : Option PValue) (app : PyPath)
    (ref : String) (br : PyPath) (h : slugJoin env bid app = .ok br) :
    ∃ tail, restoreCandidates env bid app ref =
      .ok (pathJoinStr br "manifest.json" :: tail) := by
  unfold slugJoin at h
  cases hdd : dataDirE env with
  | error e => simp [hdd, Bind.bind, Except.bind] at h
  | ok dd =>
    simp only [hdd, Bind.bind, Except.bind] at h
    unfold restoreCandidates
    simp only [hdd, Bind.bind, Except.bind]
    cases bid with
    | none =>
      simp only [Except.ok.injEq] at h
      refine ⟨[manifestPathFor dd (normalizeAppName ref)], ?_⟩
      show Except.ok ([] ++ [manifestPathFor dd (pyStem app),
        manifestPathFor dd (normalizeAppName ref)]) = _
      rw [List.nil_append]
      unfold manifestPathFor
      rw [h]
    | some v =>
      dsimp only at h ⊢
      by_cases ht : truthy v = true
      · rw [if_pos ht] at h
        rw [if_pos ht]
        cases v with
        | str s =>
          simp only [Except.ok.injEq] at h
          refine ⟨[manifestPathFor dd (pyStem app),
            manifestPathFor dd (normalizeAppName ref)], ?_⟩
          show Except.ok ([manifestPathFor dd s] ++ [manifestPathFor dd (pyStem app),
            manifestPathFor dd (normalizeAppName ref)]) = _
          unfold manifestPathFor
          rw [h]
          rfl
        | int n => simp at h
        | bool b => simp at h
        | list l => simp at h
        | dict d => simp at h
      · rw [if_neg ht] at h
        rw [if_neg ht]
        simp only [Except.ok.injEq] at h
        refine ⟨[manifestPathFor dd (normalizeAppName ref)], ?_⟩
        show Except.ok ([] ++ [manifestPathFor dd (pyStem app),
          manifestPathFor dd (normalizeAppName ref)]) = _
        rw [List.nil_append]
        unfold manifestPathFor
        rw [h]

lemma isPrefixOf_append_left (l : List String) {a b : List String}
    (h : a.isPrefixOf b = true) : (l ++ a).isPrefixOf (l ++ b) = true := by
  rw [List.isPrefixOf_iff_prefix] at h ⊢
  obtain ⟨t, ht⟩ := h
  exact ⟨t, by rw [← ht, List.append_assoc]⟩

lemma absPy_isPrefixOf (env : Env) (p q : PyPath) (hiso : p.isAbs = q.isAbs)
    (h : p.comps.isPrefixOf q.comps = true) :
    (absPy env p).isPrefixOf (absPy env q) = true := by
  unfold absPy
  rw [hiso]
  cases hq : q.isAbs with
  | true => simpa using h
  | false =>
    simp only [hq, Bool.false_eq_true, if_neg, ite_false]
    exact isPrefixOf_append_left (cwdComps env) h

lemma absPy_concat (env : Env) (p : PyPath) (l : List String) :
    absPy env ⟨p.isAbs, p.comps ++ l⟩ = absPy env p ++ l := by
  unfold absPy
  cases hab : p.isAbs with
  | true => simp [hab]
  | false => simp [hab, List.append_assoc]

lemma copy2Content_of_lookup (env : Env) (fs : FS) (src : PyPath) (c : Content)
    (h : lookupFileAbs fs (absPy env src) = some c) (hne : c ≠ .dir) :
    copy2Content env fs src = .ok c := by
  unfold copy2Content
  rw [h]
  cases c with
  | dir => exact absurd rfl hne
  | bytes s => rfl
  | plist d => rfl
  | manifest r => rfl

lemma copy2Content_ok_ne_dir (env : Env) (fs : FS) (src : PyPath) (c : Content)
    (h : copy2Content env fs src = .ok c) : c ≠ .dir := by
  unfold copy2Content at h
  cases hl : lookupFileAbs fs (absPy env src) with
  | none => simp [hl] at h
  | some c2 =>
    simp only [hl] at h
    cases c2 with
    | dir => simp at h
    | bytes s =>
      simp only [Except.ok.injEq] at h
      rw [← h]
      simp
    | plist d =>
      simp only [Except.ok.injEq] at h
      rw [← h]
      simp
    | manifest r =>
      simp only [Except.ok.injEq] at h
      rw [← h]
      simp

lemma lookup_entry {fs : FS} {a : List String} {c : Content}
    (h : lookupFileAbs fs a = some c) : ∃ e ∈ fs, e.1 = a := by
  unfold lookupFileAbs at h
  rw [Option.map_eq_some'] at h
  obtain ⟨e, he, _⟩ := h
  refine ⟨e, List.mem_of_find?_eq_some he, ?_⟩
  have := List.find?_some he
  simpa using this

lemma exists_of_lookup {fs : FS} {a : List String} {c : Content}
    (h : lookupFileAbs fs a = some c) : pathExistsAbs fs a = true := by
  obtain ⟨e, he, hea⟩ := lookup_entry h
  unfold pathExistsAbs
  rw [List.any_eq_true]
  refine ⟨e, he, ?_⟩
  rw [hea, List.isPrefixOf_iff_prefix]

lemma lookup_wf {fs : FS} {a : List String} {c : Content}
    (hwf : fsWF fs = true) (h : lookupFileAbs fs a = some c) : wfComps a = true := by
  obtain ⟨e, he, hea⟩ := lookup_entry h
  unfold fsWF at hwf
  have := List.all_eq_true.mp hwf e he
  rw [hea] at this
  exact this

lemma readInfoPlist_frame (env : Env) (fs : FS) (ops : List Op) (app : PyPath)
    (info : List (String × PValue))
    (hinfo : readInfoPlist env fs app = .ok info)
    (hdapp : ∀ k ∈ ops.map Op.key, (absPy env app).isPrefixOf k = false) :
    readInfoPlist env (applyOps ops fs) app = .ok info := by
  have hpp : pathJoinStr (pathJoinStr app "Contents") "Info.plist" =
      ⟨app.isAbs, app.comps ++ ["Contents", "Info.plist"]⟩ := by
    rw [pathJoinStr_plain app (by rfl)]
    rw [pathJoinStr_plain ⟨app.isAbs, app.comps ++ ["Contents"]⟩ (by rfl)]
    simp
  have habs : absPy env (pathJoinStr (pathJoinStr app "Contents") "Info.plist") =
      absPy env app ++ ["Contents", "Info.plist"] := by
    rw [hpp, absPy_concat]
  simp only [readInfoPlist] at hinfo ⊢
  by_cases hex : pathExists env fs (pathJoinStr (pathJoinStr app "Contents") "Info.plist") = true
  · have hex1 : pathExists env (applyOps ops fs)
        (pathJoinStr (pathJoinStr app "Contents") "Info.plist") = true := by
      unfold pathExists at hex ⊢
      rw [pathExistsAbs_applyOps, hex]
      rfl
    rw [hex] at hinfo
    rw [hex1]
    have hne : ∀ k ∈ ops.map Op.key,
        ¬(absPy env (pathJoinStr (pathJoinStr app "Contents") "Info.plist") = k) := by
      intro k hk heq
      have : (absPy env app).isPrefixOf k = true := by
        rw [← heq, habs, List.isPrefixOf_iff_prefix]
        exact List.prefix_append _ _
      rw [hdapp k hk] at this
      exact absurd this (by simp)
    rw [lookupFileAbs_applyOps_ne ops fs _ hne]
    exact hinfo
  · have hex2 : pathExists env fs (pathJoinStr (pathJoinStr app "Contents") "Info.plist")
        = false := by simpa using hex
    rw [hex2] at hinfo
    simp at hinfo

/-- C1: round trip.  If backup succeeds on a bundle, and the backup's
writes touch neither the bundle, nor the application search roots, nor
the expanded reference (the bundle is unchanged and the backup store
is separate, as in any real layout), then restore on the resulting
filesystem succeeds: it re-locates the same bundle, finds the manifest
written by backup, recomputes the target from the manifest's
icon_relpath — which is exactly the original icon location — and
copies byte-identical content back there. -/
theorem c1_backup_restore_roundtrip (env : Env) (fs : FS) (ref : String)
    (ops : List Op) (line : String) (cand app iconPath : PyPath)
    (info : List (String × PValue))
    (hwf : fsWF fs = true)
    (hexp : expandUser env (parsePyPath ref) = .ok cand)
    (hfind : findAppBundle env fs ref = .ok app)
    (hinfo : readInfoPlist env fs app = .ok info)
    (hicon : resolveIconPath env fs app info = .ok iconPath)
    (hb : backup env fs ref = (ops, .ok line))
    (hd1 : ∀ k ∈ ops.map Op.key, (absPy env app).isPrefixOf k = false)
    (hd2 : ∀ k ∈ ops.map Op.key, ∀ root ∈ appSearchDirs env,
      (absPy env root).isPrefixOf k = false)
    (hd3 : ∀ k ∈ ops.map Op.key, (absPy env cand).isPrefixOf k = false) :
    ∃ c m cands,
      lookupFileAbs fs (absPy env iconPath) = some c ∧
      restoreCandidates env (pget info "CFBundleIdentifier") app ref = .ok cands ∧
      loadManifest env (applyOps ops fs) cands = .ok m ∧
      pathJoinStr app m.icon_relpath = iconPath ∧
      restore env (applyOps ops fs) ref =
        ([.mkdirp (absPy env (pyParent iconPath)),
          .writeFile (absPy env iconPath) c],
         .ok ("Restored icon for " ++ pvToStr m.display_name ++ " -> " ++
              pathToStr iconPath)) ∧
      lookupFileAbs
        (applyOps (restore env (applyOps ops fs) ref).1 (applyOps ops fs))
        (absPy env iconPath) = some c := by
  obtain ⟨br, c, rel, hslug, hcopy, hrel, hops⟩ :=
    backup_inversion env fs ref ops line app info iconPath hfind hinfo hicon hb
  -- Unpack relative_to: the icon lies inside the bundle.
  have hcond : iconPath.isAbs = app.isAbs ∧
      app.comps.isPrefixOf iconPath.comps = true := by
    by_cases hcond : iconPath.isAbs = app.isAbs ∧
        app.comps.isPrefixOf iconPath.comps = true
    · exact hcond
    · unfold pyRelativeTo at hrel
      rw [if_neg hcond] at hrel
      simp at hrel
  have hrelval : rel = ⟨false, iconPath.comps.drop app.comps.length⟩ := by
    unfold pyRelativeTo at hrel
    rw [if_pos hcond] at hrel
    simpa using hrel.symm
  -- Keys of the four writes.
  have hwfbr : wfComps br.comps = true := wf_slugJoin env _ app br hslug
  have hwfbip : wfComps (pathJoinStr br "icon.icns").comps = true :=
    wf_pathJoinStr br "icon.icns" hwfbr
  have hparse : parsePyPath (pathToStr (pathJoinStr br "icon.icns")) =
      pathJoinStr br "icon.icns" := parse_pathToStr _ hwfbip
  have hparbip : pyParent (pathJoinStr br "icon.icns") = br :=
    pyParent_join_plain br "icon.icns" (by rfl)
  have hparmp : pyParent (pathJoinStr br "manifest.json") = br :=
    pyParent_join_plain br "manifest.json" (by rfl)
  rw [hparse, hparbip] at hops
  have hbipA : absPy env (pathJoinStr br "icon.icns") = absPy env br ++ ["icon.icns"] := by
    rw [pathJoinStr_plain br (by rfl), absPy_concat]
  have hmpA : absPy env (pathJoinStr br "manifest.json") =
      absPy env br ++ ["manifest.json"] := by
    rw [pathJoinStr_plain br (by rfl), absPy_concat]
  rw [hparmp] at hops
  -- The record backup persisted.
  set rcd : BackupRecord :=
    ⟨pathToStr app, pget info "CFBundleIdentifier", displayNameOf info app,
     pathToStr rel, pathToStr (pathJoinStr br "icon.icns"), env.nowIso ++ "Z"⟩ with hrcd
  -- The original icon content, read off the pre-backup filesystem.
  have hbrA_mem : absPy env br ∈ ops.map Op.key := by
    rw [hops]
    simp only [List.map_cons, List.mem_cons]
    exact Or.inl rfl
  have happre : (absPy env app).isPrefixOf (absPy env iconPath) = true :=
    absPy_isPrefixOf env app iconPath hcond.1.symm hcond.2
  have hne_icon_br : ¬(absPy env iconPath = absPy env br) := by
    intro heq
    have := hd1 (absPy env br) hbrA_mem
    rw [← heq] at this
    rw [happre] at this
    exact absurd this (by simp)
  have hlookup_fs : lookupFileAbs fs (absPy env iconPath) = some c := by
    have h1 := copy2Content_ok env _ iconPath c hcopy
    rwa [lookup_after_mkdirp fs (absPy env br) (absPy env iconPath)
      (Or.inr hne_icon_br)] at h1
  have hcnedir : c ≠ .dir := copy2Content_ok_ne_dir env _ iconPath c hcopy
  -- Well-formedness of the icon path's components.
  have hwficonKey : wfComps (absPy env iconPath) = true := lookup_wf hwf hlookup_fs
  have hwficomps : wfComps iconPath.comps = true := by
    unfold absPy at hwficonKey
    cases hia : iconPath.isAbs with
    | true => rw [hia] at hwficonKey; simpa using hwficonKey
    | false =>
      rw [hia] at hwficonKey
      simp only [Bool.false_eq_true, if_neg, ite_false] at hwficonKey
      exact (wfComps_of_append hwficonKey).2
  have hwfrest : wfComps (iconPath.comps.drop app.comps.length) = true := by
    have := hwficomps
    rw [← List.take_append_drop app.comps.length iconPath.comps] at this
    exact (wfComps_of_append this).2
  have hcompseq : app.comps ++ iconPath.comps.drop app.comps.length = iconPath.comps := by
    have hp := hcond.2
    rw [List.isPrefixOf_iff_prefix] at hp
    obtain ⟨t, ht⟩ := hp
    rw [← ht, List.drop_left]
  have htarget : pathJoinStr app (pathToStr ⟨false, iconPath.comps.drop app.comps.length⟩) =
      iconPath := by
    rw [join_pathToStr_rel app _ hwfrest, hcompseq, ← hcond.1, pypath_eta]
  -- Restore re-locates the same bundle and re-reads the same metadata.
  have hfind1 : findAppBundle env (applyOps ops fs) ref = .ok app :=
    findAppBundle_applyOps env fs ops ref cand app hexp hfind hd2 hd3
  have hinfo1 : readInfoPlist env (applyOps ops fs) app = .ok info :=
    readInfoPlist_frame env fs ops app info hinfo hd1
  -- The manifest probe list starts with the manifest backup wrote.
  obtain ⟨tail, hcands⟩ :=
    restoreCandidates_of_slugJoin env (pget info "CFBundleIdentifier") app ref br hslug
  -- Unfold the frozen trace into the four nested writes.
  have hfs1 : applyOps ops fs =
      applyOp (applyOp (applyOp (applyOp fs
        (.mkdirp (absPy env br)))
        (.writeFile (absPy env (pathJoinStr br "icon.icns")) c))
        (.mkdirp (absPy env br)))
        (.writeFile (absPy env (pathJoinStr br "manifest.json")) (.manifest rcd)) := by
    rw [hops]
    rfl
  have hne_bip_mp : ¬(absPy env (pathJoinStr br "icon.icns") =
      absPy env (pathJoinStr br "manifest.json")) := by
    rw [hbipA, hmpA]
    intro heq
    have := List.append_cancel_left heq
    simp at this
  have hne_bip_br : ¬(absPy env (pathJoinStr br "icon.icns") = absPy env br) := by
    rw [hbipA]
    intro heq
    have : (absPy env br).length + 1 = (absPy env br).length := by
      conv_rhs => rw [← heq]
      simp
    omega
  have hlookup_bip_fs1 : lookupFileAbs (applyOps ops fs)
      (absPy env (pathJoinStr br "icon.icns")) = some c := by
    rw [hfs1]
    rw [lookupFileAbs_applyOp_ne _ _ _ hne_bip_mp,
      lookupFileAbs_applyOp_ne _ _ _ hne_bip_br]
    exact lookupFileAbs_writeFile_self _ _ c
  have hlookup_mp_fs1 : lookupFileAbs (applyOps ops fs)
      (absPy env (pathJoinStr br "manifest.json")) = some (.manifest rcd) := by
    rw [hfs1]
    exact lookupFileAbs_writeFile_self _ _ _
  have hex_mp : pathExists env (applyOps ops fs) (pathJoinStr br "manifest.json") = true :=
    exists_of_lookup hlookup_mp_fs1
  have hload : loadManifest env (applyOps ops fs)
      (pathJoinStr br "manifest.json" :: tail) = .ok rcd := by
    unfold loadManifest
    rw [hex_mp]
    simp only [if_true, ite_true]
    rw [hlookup_mp_fs1]
  -- The restore tail.
  have hex_bip : pathExists env (applyOps ops fs) (pathJoinStr br "icon.icns") = true :=
    exists_of_lookup hlookup_bip_fs1
  have hex_icon_fs1 : pathExistsAbs (applyOps ops fs) (absPy env iconPath) = true := by
    rw [pathExistsAbs_applyOps, exists_of_lookup hlookup_fs]
    rfl
  have hpar_pre : (absPy env (pyParent iconPath)).isPrefixOf (absPy env iconPath) = true := by
    refine absPy_isPrefixOf env (pyParent iconPath) iconPath rfl ?_
    rw [List.isPrefixOf_iff_prefix]
    exact List.dropLast_prefix iconPath.comps
  have hex_parent : pathExistsAbs (applyOps ops fs)
      (absPy env (pyParent iconPath)) = true :=
    exists_of_isPrefixOf hpar_pre hex_icon_fs1
  have hcopy2 : copy2Content env
      (applyOp (applyOps ops fs) (.mkdirp (absPy env (pyParent iconPath))))
      (pathJoinStr br "icon.icns") = .ok c := by
    refine copy2Content_of_lookup env _ _ c ?_ hcnedir
    rw [lookup_after_mkdirp _ _ _ (Or.inl hex_parent)]
    exact hlookup_bip_fs1
  have hrw : restoreWith env (applyOps ops fs) app rcd =
      ([.mkdirp (absPy env (pyParent iconPath)),
        .writeFile (absPy env iconPath) c],
       .ok ("Restored icon for " ++ pvToStr rcd.display_name ++ " -> " ++
            pathToStr iconPath)) := by
    simp only [restoreWith]
    rw [hparse]
    simp only [hex_bip, if_true, ite_true]
    rw [hrelval, htarget]
    simp only [hcopy2]
  have hrestore : restore env (applyOps ops fs) ref =
      ([.mkdirp (absPy env (pyParent iconPath)),
        .writeFile (absPy env iconPath) c],
       .ok ("Restored icon for " ++ pvToStr rcd.display_name ++ " -> " ++
            pathToStr iconPath)) := by
    simp only [restore, hfind1, hinfo1, hcands, hload]
    exact hrw
  refine ⟨c, rcd, pathJoinStr br "manifest.json" :: tail,
    hlookup_fs, hcands, hload, ?_, hrestore, ?_⟩
  · rw [show rcd.icon_relpath = pathToStr rel from rfl, hrelval, htarget]
  · rw [hrestore]
    show lookupFileAbs (applyOp (applyOp (applyOps ops fs)
      (.mkdirp (absPy env (pyParent iconPath))))
      (.writeFile (absPy env iconPath) c)) (absPy env iconPath) = some c
    exact lookupFileAbs_writeFile_self _ _ c

def c1FS : FS := [
  (["Apps", "Foo.app", "Contents", "Info.plist"], .plist c5Info),
  (["Apps", "Foo.app", "Contents", "Resources", "ic.icns"], .bytes "ICON")]

def c1App : PyPath := ⟨true, ["Apps", "Foo.app"]⟩

def c1Icon : PyPath := ⟨true, ["Apps", "Foo.app", "Contents", "Resources", "ic.icns"]⟩

def c1Rcd : BackupRecord :=
  ⟨"/Apps/Foo.app", some (.str "com.foo"), .str "Foo",
   "Contents/Resources/ic.icns", "/data/iconkeep/backups/com.foo/icon.icns", "TZ"⟩

def c1Ops : List Op := [
  .mkdirp ["data", "iconkeep", "backups", "com.foo"],
  .writeFile ["data", "iconkeep", "backups", "com.foo", "icon.icns"] (.bytes "ICON"),
  .mkdirp ["data", "iconkeep", "backups", "com.foo"],
  .writeFile ["data", "iconkeep", "backups", "com.foo", "manifest.json"] (.manifest c1Rcd)]

/-- Witness for C1 at a concrete fresh state: backing up Foo.app and
then restoring rewrites the original icon bytes at the original spot. -/
theorem c1_backup_restore_roundtrip_witness :
    ∃ c m cands,
      lookupFileAbs c1FS (absPy wEnv c1Icon) = some c ∧
      restoreCandidates wEnv (pget c5Info "CFBundleIdentifier") c1App
        "/Apps/Foo.app" = .ok cands ∧
      loadManifest wEnv (applyOps c1Ops c1FS) cands = .ok m ∧
      pathJoinStr c1App m.icon_relpath = c1Icon ∧
      restore wEnv (applyOps c1Ops c1FS) "/Apps/Foo.app" =
        ([.mkdirp (absPy wEnv (pyParent c1Icon)),
          .writeFile (absPy wEnv c1Icon) c],
         .ok ("Restored icon for " ++ pvToStr m.display_name ++ " -> " ++
              pathToStr c1Icon)) ∧
      lookupFileAbs
        (applyOps (restore wEnv (applyOps c1Ops c1FS) "/Apps/Foo.app").1
          (applyOps c1Ops c1FS))
        (absPy wEnv c1Icon) = some c :=
  c1_backup_restore_roundtrip wEnv c1FS "/Apps/Foo.app" c1Ops
    "Backed up icon for Foo -> /data/iconkeep/backups/com.foo/icon.icns"
    c1App c1App c1Icon c5Info (by decide) (by rfl) (by rfl) (by rfl) (by rfl)
    (by rfl) (by decide) (by decide) (by decide)

end Iconkeep